import Mathlib

/-!
# k6 load scripts of acesso-livre-api

Shallow embedding of `k6/load-test.js` and `k6/stress-test.js`.

* JavaScript values that reach the scripts are JSON values (`JsVal`); `undefined`
  is `none` of `Option JsVal`.
* A finite JavaScript number is the exact rational value of a binary64 number,
  and arithmetic rounds its exact result to binary64 (`roundDouble`); a number can
  also be `NaN` or an infinity (`JsNum`).
* The built-ins that an iteration calls and whose definition is outside the
  repository (`JSON.parse`, the StringToNumber grammar, the digit generation of
  non-integral numbers) are fields of `Runtime`, so that the theorems about an
  iteration hold for every engine; the HTTP responses and the value of
  `Math.random()` are fields of `Env`.
* `JSON.stringify(value, null, 2)`, `JSON.parse`, Number::toString and
  StringToNumber as ECMAScript defines them are in `Json`, over binary64 rounding.
* A script run is a function on `World` (requests issued so far, trace of the
  observable calls); the world survives a thrown exception, so that `try`/`catch`
  keeps what was done before the throw.
-/

namespace K6

/-! ## JavaScript values -/

/-- Numbers: the finite ones by their exact value (the two zeros are one), `NaN`
and the two infinities. -/
inductive JsNum where
  | fin (q : ℚ)
  | nan
  | inf (neg : Bool)
  deriving DecidableEq

/-- The values of JSON, with all numbers: what `JSON.parse` returns and what k6
hands to `handleSummary`. An object lists its properties in the order JavaScript
enumerates them. -/
inductive JsVal where
  | null
  | bool (b : Bool)
  | num (x : JsNum)
  | str (s : String)
  | arr (xs : List JsVal)
  | obj (kvs : List (String × JsVal))

/-- Exceptions a script can raise. -/
inductive JsError where
  | syntaxError
  | typeError
  deriving DecidableEq, Repr

/-- Built-ins of the JavaScript engine that the scripts call and that are not
defined in the repository. -/
structure Runtime where
  /-- The result of `JSON.parse(text)`; `none` is a thrown `SyntaxError`. -/
  jsonParse : String → Option JsVal
  /-- StringToNumber, the coercion of a string to a number. -/
  stringToNumber : String → JsNum
  /-- Number::toString for the finite numbers that are not integers up to `2^53`. -/
  numberToString : ℚ → String

/-- The value of `Boolean(v)`. -/
def truthy : JsVal → Bool
  | .null => false
  | .bool b => b
  | .num (.fin q) => q ≠ 0
  | .num .nan => false
  | .num (.inf _) => true
  | .str s => s ≠ ""
  | .arr _ => true
  | .obj _ => true

/-- Own property of an object literal, by key. -/
def lookup (kvs : List (String × JsVal)) (k : String) : Option JsVal :=
  (kvs.find? (fun kv => kv.1 == k)).map Prod.snd

/-- Number of UTF-16 code units of a string, the `length` of a JavaScript string. -/
def utf16Length (s : String) : Nat :=
  (s.data.map (fun c => if c.val.toNat < 65536 then 1 else 2)).sum

/-- The code units of a string, each as a one-unit string. A half of a surrogate
pair is written as its whole code point: the scripts read only `.id` of such a
unit, which is `undefined` for every string. -/
def utf16Units (s : String) : List String :=
  s.data.flatMap (fun c => if c.val.toNat < 65536 then [c.toString] else [c.toString, c.toString])

/-- The number written by decimal digits, after the digits read so far. -/
def parseDigits : List Char → Nat → Option Nat
  | [], acc => some acc
  | c :: cs, acc =>
    if '0' ≤ c ∧ c ≤ '9' then parseDigits cs (10 * acc + (c.toNat - 48)) else none

/-- The array index a property key denotes, if it is a canonical one. -/
def arrayIndex (k : String) : Option Nat :=
  match k.data with
  | [] => none
  | ['0'] => some 0
  | '0' :: _ => none
  | cs => parseDigits cs 0

/-- The JSON-valued property `v.k` of a value other than `null`. Inherited
properties that are functions (`Array.prototype.values`) are not JSON values and
read as `none`; the scripts only read them in front of a `?.field`, which is
`undefined` in both cases. -/
def getField (v : JsVal) (k : String) : Option JsVal :=
  match v with
  | .obj kvs => lookup kvs k
  | .arr xs =>
    if k == "length" then some (.num (.fin xs.length))
    else match arrayIndex k with
      | some i => xs[i]?
      | none => none
  | .str s =>
    if k == "length" then some (.num (.fin (utf16Length s)))
    else match arrayIndex k with
      | some i => (utf16Units s)[i]?.map JsVal.str
      | none => none
  | _ => none

/-- The member access `v.k`: a `TypeError` on `undefined` and `null`. -/
def member (v : Option JsVal) (k : String) : Except JsError (Option JsVal) :=
  match v with
  | none => .error .typeError
  | some .null => .error .typeError
  | some w => .ok (getField w k)

/-- Optional chaining `v?.k`. -/
def optMember (v : Option JsVal) (k : String) : Option JsVal :=
  match v with
  | none => none
  | some .null => none
  | some w => getField w k

/-- Number::toString. An integer up to `2^53` is written by its decimal digits,
which are its shortest digits. -/
def numberToString (rt : Runtime) : JsNum → String
  | .nan => "NaN"
  | .inf false => "Infinity"
  | .inf true => "-Infinity"
  | .fin q =>
    if q.den = 1 ∧ q.num.natAbs ≤ 2 ^ 53 then toString q.num else rt.numberToString q

mutual
/-- ToString of a value, as in a template literal. An array is the join of its
elements with `,`; an object that has an own `toString` property (never callable
in a JSON value) cannot be converted. -/
def toStr (rt : Runtime) : JsVal → Except JsError String
  | .null => .ok "null"
  | .bool b => .ok (if b then "true" else "false")
  | .num x => .ok (numberToString rt x)
  | .str s => .ok s
  | .arr xs => (elemStrs rt xs).map (String.intercalate ",")
  | .obj kvs => if (lookup kvs "toString").isSome then .error .typeError else .ok "[object Object]"
/-- The texts of the elements in Array.prototype.join: empty for `null`. -/
def elemStrs (rt : Runtime) : List JsVal → Except JsError (List String)
  | [] => .ok []
  | .null :: rest => (elemStrs rt rest).map (fun ss => "" :: ss)
  | x :: rest =>
    match toStr rt x with
    | .ok a => (elemStrs rt rest).map (fun ss => a :: ss)
    | .error e => .error e
end

/-! ## Numeric coercions -/

/-- ToNumber of a value. Arrays and objects go through ToPrimitive, which gives
their string. -/
def toNumber (rt : Runtime) : JsVal → Except JsError JsNum
  | .null => .ok (.fin 0)
  | .bool b => .ok (.fin (if b then 1 else 0))
  | .num x => .ok x
  | .str s => .ok (rt.stringToNumber s)
  | .arr xs => (toStr rt (.arr xs)).map rt.stringToNumber
  | .obj kvs => (toStr rt (.obj kvs)).map rt.stringToNumber

/-- ToNumber of a value that may be `undefined`. -/
def toNumberOpt (rt : Runtime) : Option JsVal → Except JsError JsNum
  | none => .ok .nan
  | some v => toNumber rt v

/-- The nearest integer, the even one on a tie. -/
def roundHalfEven (m : ℚ) : ℤ :=
  if m - ⌊m⌋ < 1 / 2 then ⌊m⌋
  else if 1 / 2 < m - ⌊m⌋ then ⌊m⌋ + 1
  else if ⌊m⌋ % 2 = 0 then ⌊m⌋ else ⌊m⌋ + 1

/-- The exponent of the binade of a positive number in binary64: that of the
subnormal numbers at least. -/
def binade (x : ℚ) : ℤ := max (Int.log 2 x) (-1022)

/-- The binary64 value of a real number: round to nearest, ties to even, with 53
bits of significand; an infinity from `2^1024` on. -/
def roundDouble (x : ℚ) : JsNum :=
  let y := (roundHalfEven (|x| / 2 ^ (binade |x| - 52)) : ℚ) * 2 ^ (binade |x| - 52)
  if (2 : ℚ) ^ 1024 ≤ y then .inf (decide (x < 0)) else .fin (if x < 0 then -y else y)

/-- A number that binary64 holds exactly. -/
def IsDouble (x : ℚ) : Prop := roundDouble x = .fin x

/-- The product `c * x` of a finite number and a number: the exact product of two
finite numbers rounded to binary64. -/
def JsNum.mul (c : ℚ) : JsNum → JsNum
  | .fin q => roundDouble (c * q)
  | .nan => .nan
  | .inf neg => if c = 0 then .nan else .inf (if c < 0 then !neg else neg)

/-- The value of `Math.floor`. -/
def JsNum.floor : JsNum → JsNum
  | .fin q => .fin ⌊q⌋
  | x => x

/-- The comparison `x > 0`. -/
def JsNum.isPos : JsNum → Bool
  | .fin q => 0 < q
  | .nan => false
  | .inf neg => !neg

/-- Two decimal digits of a number below 100. -/
def twoDigits (n : Nat) : String :=
  toString (n / 10) ++ toString (n % 10)

/-- Number.prototype.toFixed(2): nearest multiple of 1/100, the larger one on a
tie, of the absolute value. -/
def toFixed2 (rt : Runtime) : JsNum → String
  | .fin q =>
    let s := if q < 0 then "-" else ""
    let x := |q|
    if (10 : ℚ) ^ 21 ≤ x then s ++ numberToString rt (.fin x)
    else
      let n := ⌊x * 100 + 1 / 2⌋.toNat
      s ++ toString (n / 100) ++ "." ++ twoDigits (n % 100)
  | x => numberToString rt x

/-- The call `v.toFixed(2)`: only numbers have the method. -/
def callToFixed2 (rt : Runtime) : JsVal → Except JsError String
  | .num x => .ok (toFixed2 rt x)
  | _ => .error .typeError

/-- The value of `v || 0`. -/
def orZero : Option JsVal → JsVal
  | some v => if truthy v then v else .num (.fin 0)
  | none => .num (.fin 0)

/-- The computed member `v[i]` for a number `i`, on a value other than `null`:
an element of an array, a code unit of a string, the property named by the text
of `i` of an object. -/
def getIndexed (rt : Runtime) (v : JsVal) (i : JsNum) : Option JsVal :=
  match v, i with
  | .arr xs, .fin q => if q.den = 1 ∧ 0 ≤ q.num then xs[q.num.toNat]? else none
  | .str s, .fin q =>
    if q.den = 1 ∧ 0 ≤ q.num then (utf16Units s)[q.num.toNat]?.map JsVal.str else none
  | .obj kvs, i => lookup kvs (numberToString rt i)
  | _, _ => none

/-- ToString of a value that may be `undefined`. -/
def toStrOpt (rt : Runtime) : Option JsVal → Except JsError String
  | none => .ok "undefined"
  | some v => toStr rt v

/-- The value of `Boolean(v)` for a value that may be `undefined`. -/
def truthyOpt : Option JsVal → Bool
  | none => false
  | some v => truthy v

/-- The computed member access `v[i]`: a `TypeError` on `undefined` and `null`. -/
def memberAt (rt : Runtime) (v : Option JsVal) (i : JsNum) : Except JsError (Option JsVal) :=
  match v with
  | none => .error .typeError
  | some .null => .error .typeError
  | some w => .ok (getIndexed rt w i)

/-! ## The k6 interface -/

/-- What a script reads of an HTTP response. A transport failure is a response
with status 0. -/
structure Response where
  status : Nat
  /-- The field `body`: a string, or `null`. -/
  body : Option String
  /-- The field `timings.duration`. -/
  duration : ℚ

/-- The calls of a script that k6 observes. -/
inductive Event where
  | httpGet (url : String)
  | trendAdd (metric : String) (value : ℚ)
  | check (name : String) (passed : Bool)
  | rateAdd (metric : String) (value : Bool)
  | sleep (seconds : ℚ)
  deriving DecidableEq

/-- What an iteration depends on: the engine, the response to the n-th request
of the iteration, the value `Math.random()` returns. -/
structure Env where
  rt : Runtime
  responses : Nat → Response
  random : ℚ

/-- The state an iteration changes: the number of requests issued and the trace. -/
structure World where
  issued : Nat
  trace : List Event

/-- A script fragment: the world after it is defined also when it throws. -/
def Script (α : Type) : Type := World → Except JsError α × World

namespace Script

/-- Normal completion. -/
def ret {α : Type} (a : α) : Script α := fun w => (.ok a, w)

/-- Sequencing: a throw of the first fragment skips the second. -/
def seq {α β : Type} (m : Script α) (f : α → Script β) : Script β := fun w =>
  match m w with
  | (.ok a, w1) => f a w1
  | (.error e, w1) => (.error e, w1)

instance : Monad Script where
  pure := ret
  bind := seq

/-- An expression that may throw, inside a script. -/
def eval {α : Type} (x : Except JsError α) : Script α := fun w => (x, w)

/-- The statement `try body catch handler`. -/
def tryCatch (body : Script Unit) (handler : JsError → Script Unit) : Script Unit := fun w =>
  match body w with
  | (.ok a, w1) => (.ok a, w1)
  | (.error e, w1) => handler e w1

/-- Append an observed call to the trace. -/
def emit (e : Event) : Script Unit := fun w => (.ok (), { w with trace := w.trace ++ [e] })

end Script

/-- The call `http.get(url)`: the next response of the environment. -/
def httpGet (env : Env) (url : String) : Script Response := fun w =>
  (.ok (env.responses w.issued), { issued := w.issued + 1, trace := w.trace ++ [.httpGet url] })

/-- The call `JSON.parse(body)`: `null` is converted to the text `null` first. -/
def jsonParse (rt : Runtime) (body : Option String) : Except JsError JsVal :=
  match rt.jsonParse (match body with | none => "null" | some s => s) with
  | some v => .ok v
  | none => .error .syntaxError

/-- The world at the start of an iteration. -/
def World.start : World := { issued := 0, trace := [] }

/-- The URLs requested, in order. -/
def urls : List Event → List String
  | [] => []
  | .httpGet u :: es => u :: urls es
  | _ :: es => urls es

/-- The observations added to a rate metric, in order. -/
def rateObs (metric : String) : List Event → List Bool
  | [] => []
  | .rateAdd m v :: es => if m = metric then v :: rateObs metric es else rateObs metric es
  | _ :: es => rateObs metric es

/-- The values added to a trend metric, in order. -/
def trendObs (metric : String) : List Event → List ℚ
  | [] => []
  | .trendAdd m v :: es => if m = metric then v :: trendObs metric es else trendObs metric es
  | _ :: es => trendObs metric es

end K6

/-! ## JSON.stringify, JSON.parse and the number texts of ECMAScript -/

namespace Json
open K6

/-! ### Numbers -/

/-- The decimal digits of a natural number, the most significant first. -/
def decimalDigits (s : ℕ) : List Char :=
  if s = 0 then ['0'] else (Nat.digits 10 s).reverse.map Nat.digitChar

/-- The value of the digits of `s` with the decimal point after the first `n` of
them: `s * 10^(n - k)` for `k` digits. -/
def decimalValue (s : ℕ) (n : ℤ) : ℚ :=
  (s : ℚ) * (10 : ℚ) ^ (n - ((decimalDigits s).length : ℤ))

/-- The digits to write for a number, among the two numbers of `k` digits around
it: the one that is read back as the number, the nearer one of two, the even one
on a tie. A candidate of `k + 1` digits is a power of ten and is given by its
digit 1. -/
def candidate (q : ℚ) (n0 : ℤ) (k : ℕ) : Option (ℕ × ℤ) :=
  let unit : ℚ := (10 : ℚ) ^ (n0 - (k : ℤ))
  let lo : ℕ := ⌊q / unit⌋₊
  let hi : ℕ × ℤ := if lo + 1 = 10 ^ k then (1, n0 + 1) else (lo + 1, n0)
  let okLo : Bool := decide (roundDouble (decimalValue lo n0) = .fin q)
  let okHi : Bool := decide (roundDouble (decimalValue hi.1 hi.2) = .fin q)
  if okLo ∧ okHi then
    if q - decimalValue lo n0 < decimalValue hi.1 hi.2 - q then some (lo, n0)
    else if decimalValue hi.1 hi.2 - q < q - decimalValue lo n0 then some hi
    else if lo % 2 = 0 then some (lo, n0) else some hi
  else if okLo then some (lo, n0)
  else if okHi then some hi
  else none

/-- The first number of digits from `k` on, within `fuel` more, that has a
candidate. -/
def searchDigits (q : ℚ) (n0 : ℤ) : ℕ → ℕ → Option (ℕ × ℤ)
  | 0, _ => none
  | fuel + 1, k =>
    match candidate q n0 k with
    | some r => some r
    | none => searchDigits q n0 fuel (k + 1)

/-- The digits `s` and the position `n` of the decimal point that Number::toString
writes for a positive binary64 number: the fewest digits that are read back as the
number, which are at most 17; the exact decimal expansion stands behind them. -/
def shortestDigits (q : ℚ) : ℕ × ℤ :=
  match searchDigits q (Int.log 10 q + 1) 17 1 with
  | some r => r
  | none =>
    let s := ⌊q * 10 ^ 1074⌋₊
    (s, ((decimalDigits s).length : ℤ) - 1074)

/-- The layout of Number::toString for the digits `s` and the position `n`. -/
def layout (s : ℕ) (n : ℤ) : List Char :=
  let ds := decimalDigits s
  let k : ℤ := ds.length
  if k ≤ n ∧ n ≤ 21 then ds ++ List.replicate (n - k).toNat '0'
  else if 0 < n ∧ n ≤ 21 then ds.take n.toNat ++ '.' :: ds.drop n.toNat
  else if -6 < n ∧ n ≤ 0 then '0' :: '.' :: (List.replicate (-n).toNat '0' ++ ds)
  else
    match ds with
    | [] => []
    | [d] => d :: 'e' :: (if n - 1 < 0 then '-' else '+') :: decimalDigits (n - 1).natAbs
    | d :: rest =>
      d :: '.' :: (rest ++ 'e' :: (if n - 1 < 0 then '-' else '+') :: decimalDigits (n - 1).natAbs)

/-- Number::toString of a finite number. -/
def numberChars (q : ℚ) : List Char :=
  if q = 0 then ['0']
  else if q < 0 then '-' :: layout (shortestDigits (-q)).1 (shortestDigits (-q)).2
  else layout (shortestDigits q).1 (shortestDigits q).2

/-- A decimal digit. -/
def isDigit (c : Char) : Bool := decide ('0' ≤ c ∧ c ≤ '9')

/-- The number a decimal digit stands for. -/
def digitVal (c : Char) : ℕ := c.toNat - 48

/-- Read the leading decimal digits of a text, after the digits read so far:
the number read, how many digits were added, the rest of the text. -/
def readDigits : List Char → ℕ → ℕ → ℕ × ℕ × List Char
  | [], acc, cnt => (acc, cnt, [])
  | c :: cs, acc, cnt =>
    if isDigit c then readDigits cs (10 * acc + digitVal c) (cnt + 1) else (acc, cnt, c :: cs)

/-- The fraction of a JSON number, if there is one: the digits read continue the
digits of the integer part. -/
def readFraction (cs : List Char) (acc : ℕ) : Option (ℕ × ℕ × List Char) :=
  match cs with
  | [] => some (acc, 0, [])
  | c :: rest =>
    if c = '.' then
      if (readDigits rest acc 0).2.1 = 0 then none else some (readDigits rest acc 0)
    else some (acc, 0, c :: rest)

/-- The exponent of a JSON number, if there is one. -/
def readExponent (cs : List Char) : Option (ℤ × List Char) :=
  match cs with
  | [] => some (0, [])
  | c :: rest =>
    if c = 'e' ∨ c = 'E' then
      match rest with
      | [] => none
      | d :: rest1 =>
        if d = '-' then
          if (readDigits rest1 0 0).2.1 = 0 then none
          else some (-((readDigits rest1 0 0).1 : ℤ), (readDigits rest1 0 0).2.2)
        else if d = '+' then
          if (readDigits rest1 0 0).2.1 = 0 then none
          else some (((readDigits rest1 0 0).1 : ℤ), (readDigits rest1 0 0).2.2)
        else
          if (readDigits (d :: rest1) 0 0).2.1 = 0 then none
          else some (((readDigits (d :: rest1) 0 0).1 : ℤ), (readDigits (d :: rest1) 0 0).2.2)
    else some (0, c :: rest)

/-- The exact value of a JSON number without its sign: a `0` or digits without a
leading zero, an optional fraction, an optional exponent. -/
def readUnsigned (cs : List Char) : Option (ℚ × List Char) :=
  match cs with
  | [] => none
  | d :: rest =>
    if isDigit d then
      match readFraction (if d = '0' then rest else (readDigits (d :: rest) 0 0).2.2)
          (if d = '0' then 0 else (readDigits (d :: rest) 0 0).1) with
      | none => none
      | some (m, f, rest1) =>
        match readExponent rest1 with
        | none => none
        | some (e, rest2) => some ((m : ℚ) * (10 : ℚ) ^ (e - (f : ℤ)), rest2)
    else none

/-- A JSON number: its exact value rounded to binary64. -/
def readNumber (cs : List Char) : Option (JsNum × List Char) :=
  match cs with
  | [] => none
  | c :: rest =>
    if c = '-' then (readUnsigned rest).map (fun vr => (roundDouble (-vr.1), vr.2))
    else (readUnsigned (c :: rest)).map (fun vr => (roundDouble vr.1, vr.2))

/-! ### Strings -/

/-- The quotation mark. -/
def dquote : Char := Char.ofNat 34

/-- The reverse solidus. -/
def bslash : Char := Char.ofNat 92

/-- The text of one character in QuoteJSONString: the short escapes, `\u00XX` for
the other control characters, the character itself otherwise. -/
def quoteChar (c : Char) : List Char :=
  if c = dquote then [bslash, dquote]
  else if c = bslash then [bslash, bslash]
  else if c.toNat = 8 then [bslash, 'b']
  else if c.toNat = 9 then [bslash, 't']
  else if c.toNat = 10 then [bslash, 'n']
  else if c.toNat = 12 then [bslash, 'f']
  else if c.toNat = 13 then [bslash, 'r']
  else if c.toNat < 32 then
    [bslash, 'u', '0', '0', Nat.digitChar (c.toNat / 16), Nat.digitChar (c.toNat % 16)]
  else [c]

/-- QuoteJSONString. -/
def quote (s : String) : List Char :=
  dquote :: (s.data.flatMap quoteChar ++ [dquote])

/-- The value of a hexadecimal digit. -/
def hexVal (c : Char) : Option ℕ :=
  if '0' ≤ c ∧ c ≤ '9' then some (c.toNat - 48)
  else if 'a' ≤ c ∧ c ≤ 'f' then some (c.toNat - 87)
  else if 'A' ≤ c ∧ c ≤ 'F' then some (c.toNat - 55)
  else none

/-- The value of four hexadecimal digits. -/
def hex4 (a b c d : Char) : Option ℕ :=
  match hexVal a, hexVal b, hexVal c, hexVal d with
  | some x, some y, some z, some w => some (((x * 16 + y) * 16 + z) * 16 + w)
  | _, _, _, _ => none

/-- The character written by the four hexadecimal digits of a `\u` escape, with
the `\u` escape of a low surrogate that follows those of a high surrogate. A string
is a sequence of Unicode scalar values here: the escape of a surrogate that is not
part of such a pair has no value. -/
def readUnicode (cs : List Char) : Option (Char × List Char) :=
  match cs with
  | a :: b :: c :: d :: cs2 =>
    match hex4 a b c d with
    | none => none
    | some u =>
      if 55296 ≤ u ∧ u < 56320 then
        match cs2 with
        | e1 :: e2 :: a2 :: b2 :: c2 :: d2 :: cs3 =>
          if e1 = bslash ∧ e2 = 'u' then
            match hex4 a2 b2 c2 d2 with
            | some lo =>
              if 56320 ≤ lo ∧ lo < 57344 then
                some (Char.ofNat (65536 + (u - 55296) * 1024 + (lo - 56320)), cs3)
              else none
            | none => none
          else none
        | _ => none
      else if 56320 ≤ u ∧ u < 57344 then none
      else some (Char.ofNat u, cs2)
  | _ => none

/-- The character an escape stands for, after its reverse solidus. -/
def readEscape (cs : List Char) : Option (Char × List Char) :=
  match cs with
  | [] => none
  | e :: cs1 =>
    if e = dquote then some (dquote, cs1)
    else if e = bslash then some (bslash, cs1)
    else if e = '/' then some ('/', cs1)
    else if e = 'b' then some (Char.ofNat 8, cs1)
    else if e = 'f' then some (Char.ofNat 12, cs1)
    else if e = 'n' then some (Char.ofNat 10, cs1)
    else if e = 'r' then some (Char.ofNat 13, cs1)
    else if e = 't' then some (Char.ofNat 9, cs1)
    else if e = 'u' then readUnicode cs1
    else none

/-- The next character of a JSON string that does not end here: an escape, or a
character that is not a control character. -/
def readChar (c : Char) (cs : List Char) : Option (Char × List Char) :=
  if c = bslash then readEscape cs
  else if c.toNat < 32 then none
  else some (c, cs)

/-- The characters of a JSON string up to its closing quotation mark, after the
characters read so far (in reverse), in at most `fuel` steps. -/
def readStringAux : ℕ → List Char → List Char → Option (String × List Char)
  | 0, _, _ => none
  | _ + 1, [], _ => none
  | fuel + 1, c :: cs, acc =>
    if c = dquote then some (String.mk acc.reverse, cs)
    else
      match readChar c cs with
      | none => none
      | some (ch, rest) => readStringAux fuel rest (ch :: acc)

/-- The characters of a JSON string after its opening quotation mark, and the
text after the closing one. -/
def readString (cs : List Char) : Option (String × List Char) :=
  readStringAux (cs.length + 1) cs []

/-! ### Objects -/

/-- The array index a property key denotes: a canonical numeric string below
`2^32 - 1`. -/
def propIndex (k : String) : Option ℕ :=
  match arrayIndex k with
  | some i => if i < 4294967295 then some i else none
  | none => none

/-- A new property with an array index goes before the first property that has no
array index or a larger one. -/
def insertIndexed (i : ℕ) (k : String) (v : JsVal) :
    List (String × JsVal) → List (String × JsVal)
  | [] => [(k, v)]
  | kv :: rest =>
    match propIndex kv.1 with
    | some j => if j < i then kv :: insertIndexed i k v rest else (k, v) :: kv :: rest
    | none => (k, v) :: kv :: rest

/-- The value of an existing property changes in place. -/
def replaceProp (k : String) (v : JsVal) : List (String × JsVal) → List (String × JsVal)
  | [] => []
  | kv :: rest => if kv.1 = k then (k, v) :: rest else kv :: replaceProp k v rest

/-- CreateDataProperty on an ordinary object: the properties with an array index
come first, in ascending order, the others follow in the order of their creation. -/
def setProp (kvs : List (String × JsVal)) (k : String) (v : JsVal) : List (String × JsVal) :=
  if kvs.any (fun kv => kv.1 = k) then replaceProp k v kvs
  else
    match propIndex k with
    | some i => insertIndexed i k v kvs
    | none => kvs ++ [(k, v)]

/-- The object that has the given properties defined one after the other. -/
def fromEntries (kvs : List (String × JsVal)) : List (String × JsVal) :=
  kvs.foldl (fun acc kv => setProp acc kv.1 kv.2) []

/-! ### JSON.stringify -/

/-- The left brace. -/
def lbrace : Char := Char.ofNat 123

/-- The right brace. -/
def rbrace : Char := Char.ofNat 125

mutual
/-- SerializeJSONProperty with the gap of two spaces, at an indentation. -/
def write (ind : List Char) : JsVal → List Char
  | .null => ['n', 'u', 'l', 'l']
  | .bool b => if b then ['t', 'r', 'u', 'e'] else ['f', 'a', 'l', 's', 'e']
  | .num (.fin q) => numberChars q
  | .num _ => ['n', 'u', 'l', 'l']
  | .str s => quote s
  | .arr [] => ['[', ']']
  | .arr (x :: xs) =>
    '[' :: '\n' :: (ind ++ ' ' :: ' ' :: (write (ind ++ [' ', ' ']) x ++
      (writeElements (ind ++ [' ', ' ']) xs ++ '\n' :: (ind ++ [']']))))
  | .obj [] => [lbrace, rbrace]
  | .obj ((k, v) :: kvs) =>
    lbrace :: '\n' :: (ind ++ ' ' :: ' ' :: (quote k ++ ':' :: ' ' ::
      (write (ind ++ [' ', ' ']) v ++
        (writeMembers (ind ++ [' ', ' ']) kvs ++ '\n' :: (ind ++ [rbrace])))))
/-- The elements of an array after the first, each after its separator. -/
def writeElements (ind : List Char) : List JsVal → List Char
  | [] => []
  | x :: xs => ',' :: '\n' :: (ind ++ (write ind x ++ writeElements ind xs))
/-- The members of an object after the first, each after its separator. -/
def writeMembers (ind : List Char) : List (String × JsVal) → List Char
  | [] => []
  | (k, v) :: kvs =>
    ',' :: '\n' :: (ind ++ (quote k ++ ':' :: ' ' :: (write ind v ++ writeMembers ind kvs)))
end

/-- The text `JSON.stringify(value, null, 2)`. -/
def stringify (v : JsVal) : String := String.mk (write [] v)

/-! ### JSON.parse -/

/-- White space of JSON. -/
def isWs (c : Char) : Bool := decide (c = ' ' ∨ c = '\t' ∨ c = '\n' ∨ c = '\r')

/-- Drop the leading white space. -/
def skipWs : List Char → List Char
  | [] => []
  | c :: cs => if isWs c then skipWs cs else c :: cs

mutual
/-- A JSON value at the head of a text, after white space, and the rest. -/
def readValue : ℕ → List Char → Option (JsVal × List Char)
  | 0, _ => none
  | fuel + 1, cs =>
    match skipWs cs with
    | [] => none
    | c :: rest =>
      if c = dquote then (readString rest).map (fun sr => (.str sr.1, sr.2))
      else if c = '[' then
        match skipWs rest with
        | [] => none
        | d :: rest1 =>
          if d = ']' then some (.arr [], rest1) else readElements fuel (d :: rest1) []
      else if c = lbrace then
        match skipWs rest with
        | [] => none
        | d :: rest1 =>
          if d = rbrace then some (.obj [], rest1) else readMembers fuel (d :: rest1) []
      else if c = 'n' then
        match rest with
        | 'u' :: 'l' :: 'l' :: rest1 => some (.null, rest1)
        | _ => none
      else if c = 't' then
        match rest with
        | 'r' :: 'u' :: 'e' :: rest1 => some (.bool true, rest1)
        | _ => none
      else if c = 'f' then
        match rest with
        | 'a' :: 'l' :: 's' :: 'e' :: rest1 => some (.bool false, rest1)
        | _ => none
      else (readNumber (c :: rest)).map (fun xr => (.num xr.1, xr.2))
/-- The elements of an array up to its closing bracket, after the elements read
so far (in reverse). -/
def readElements : ℕ → List Char → List JsVal → Option (JsVal × List Char)
  | 0, _, _ => none
  | fuel + 1, cs, acc =>
    match readValue fuel cs with
    | none => none
    | some (v, rest) =>
      match skipWs rest with
      | [] => none
      | d :: rest1 =>
        if d = ',' then readElements fuel rest1 (v :: acc)
        else if d = ']' then some (.arr (v :: acc).reverse, rest1)
        else none
/-- The members of an object up to its closing brace, added to the object read so
far. -/
def readMembers : ℕ → List Char → List (String × JsVal) → Option (JsVal × List Char)
  | 0, _, _ => none
  | fuel + 1, cs, acc =>
    match skipWs cs with
    | [] => none
    | q :: rest =>
      if q = dquote then
        match readString rest with
        | none => none
        | some (k, rest1) =>
          match skipWs rest1 with
          | [] => none
          | c :: rest2 =>
            if c = ':' then
              match readValue fuel rest2 with
              | none => none
              | some (v, rest3) =>
                match skipWs rest3 with
                | [] => none
                | d :: rest4 =>
                  if d = ',' then readMembers fuel rest4 (setProp acc k v)
                  else if d = rbrace then some (.obj (setProp acc k v), rest4)
                  else none
            else none
      else none
end

/-- The value `JSON.parse(text)`; `none` is a thrown `SyntaxError`. -/
def parse (text : String) : Option JsVal :=
  match readValue (text.length + 1) text.data with
  | some (v, rest) => if skipWs rest = [] then some v else none
  | none => none

/-! ### JSON-representable values -/

mutual
/-- The values that JSON represents: the numbers are binary64 numbers, the
properties of an object are in the order of a JavaScript object. -/
def Representable : JsVal → Prop
  | .null => True
  | .bool _ => True
  | .num x => ∃ q, x = .fin q ∧ IsDouble q
  | .str _ => True
  | .arr xs => RepresentableList xs
  | .obj kvs => fromEntries kvs = kvs ∧ RepresentableMembers kvs
/-- Every element is representable. -/
def RepresentableList : List JsVal → Prop
  | [] => True
  | x :: xs => Representable x ∧ RepresentableList xs
/-- Every member is representable. -/
def RepresentableMembers : List (String × JsVal) → Prop
  | [] => True
  | (_, v) :: kvs => Representable v ∧ RepresentableMembers kvs
end

/-! ### Notions for the proofs -/

/-- The number read from digits after the number read so far. -/
def digitsValue (acc : ℕ) (l : List Char) : ℕ :=
  l.foldl (fun a c => 10 * a + digitVal c) acc

/-- A text that cannot continue a number. -/
def EndsNumber (rest : List Char) : Prop :=
  ∀ c ∈ rest.head?, isDigit c = false ∧ c ≠ '.' ∧ c ≠ 'e' ∧ c ≠ 'E'

/-- The negative of a number. -/
def negNum : JsNum → JsNum
  | .fin q => .fin (-q)
  | .nan => .nan
  | .inf neg => .inf (!neg)

/-- An indentation: spaces only. -/
def Spaces (ind : List Char) : Prop := ∀ c ∈ ind, c = ' '

mutual
/-- The number of nested calls that reading a value takes. -/
def size : JsVal → ℕ
  | .null => 1
  | .bool _ => 1
  | .num _ => 1
  | .str _ => 1
  | .arr xs => sizeList xs + 1
  | .obj kvs => sizeMembers kvs + 1
/-- The calls for the elements of an array. -/
def sizeList : List JsVal → ℕ
  | [] => 0
  | x :: xs => size x + sizeList xs + 1
/-- The calls for the members of an object. -/
def sizeMembers : List (String × JsVal) → ℕ
  | [] => 0
  | (_, v) :: kvs => size v + sizeMembers kvs + 1
end

/-- The text of the elements of an array, without the brackets. -/
def writeItems (ind : List Char) : List JsVal → List Char
  | [] => []
  | x :: xs => write ind x ++ writeElements ind xs

/-- The text of the members of an object, without the braces. -/
def writeFields (ind : List Char) : List (String × JsVal) → List Char
  | [] => []
  | (k, v) :: kvs => quote k ++ ':' :: ' ' :: (write ind v ++ writeMembers ind kvs)

/-- The object that results from defining the given properties on an object. -/
def addEntries (acc kvs : List (String × JsVal)) : List (String × JsVal) :=
  kvs.foldl (fun a kv => setProp a kv.1 kv.2) acc

/-! ### StringToNumber -/

/-- White space and line terminators of ECMAScript, by code point. -/
def isStrWs (c : Char) : Bool :=
  decide (c.toNat ∈ [9, 10, 11, 12, 13, 32, 160, 5760, 8232, 8233, 8239, 8287, 12288, 65279] ∨
    (8192 ≤ c.toNat ∧ c.toNat ≤ 8202))

/-- A text without its leading and trailing white space. -/
def trim (cs : List Char) : List Char :=
  ((cs.dropWhile isStrWs).reverse.dropWhile isStrWs).reverse

/-- The value of a digit in a base up to 16, if it is one. -/
def digitIn (base : ℕ) (c : Char) : Option ℕ :=
  match hexVal c with
  | some d => if d < base then some d else none
  | none => none

/-- The number a non-empty text of digits in a base denotes. -/
def readBase (base : ℕ) : List Char → Option ℕ → Option ℕ
  | [], acc => acc
  | c :: cs, acc =>
    match digitIn base c with
    | some d => readBase base cs (some (base * acc.getD 0 + d))
    | none => none

/-- The exponent part of a decimal literal that ends the text, if it is one. -/
def readStrExponent (cs : List Char) : Option ℤ :=
  match cs with
  | [] => some 0
  | c :: rest =>
    if c = 'e' ∨ c = 'E' then
      match rest with
      | [] => none
      | d :: rest1 =>
        if d = '-' then
          if (readDigits rest1 0 0).2.1 ≠ 0 ∧ (readDigits rest1 0 0).2.2 = [] then
            some (-((readDigits rest1 0 0).1 : ℤ)) else none
        else if d = '+' then
          if (readDigits rest1 0 0).2.1 ≠ 0 ∧ (readDigits rest1 0 0).2.2 = [] then
            some ((readDigits rest1 0 0).1 : ℤ) else none
        else
          if (readDigits rest 0 0).2.1 ≠ 0 ∧ (readDigits rest 0 0).2.2 = [] then
            some ((readDigits rest 0 0).1 : ℤ) else none
    else none

/-- The exact value of a StrUnsignedDecimalLiteral other than `Infinity`: digits
with an optional fraction, or a fraction alone, and an optional exponent. -/
def readStrDecimal (cs : List Char) : Option ℚ :=
  match (readDigits cs 0 0).2.2 with
  | '.' :: rest =>
    if (readDigits cs 0 0).2.1 + (readDigits rest (readDigits cs 0 0).1 0).2.1 = 0 then none
    else
      (readStrExponent (readDigits rest (readDigits cs 0 0).1 0).2.2).map (fun e =>
        ((readDigits rest (readDigits cs 0 0).1 0).1 : ℚ) *
          (10 : ℚ) ^ (e - ((readDigits rest (readDigits cs 0 0).1 0).2.1 : ℤ)))
  | rest =>
    if (readDigits cs 0 0).2.1 = 0 then none
    else (readStrExponent rest).map (fun e => ((readDigits cs 0 0).1 : ℚ) * (10 : ℚ) ^ e)

/-- The value of a StrUnsignedDecimalLiteral; `NaN` for another text. -/
def readStrUnsigned (cs : List Char) : JsNum :=
  if cs = ['I', 'n', 'f', 'i', 'n', 'i', 't', 'y'] then .inf false
  else
    match readStrDecimal cs with
    | some q => roundDouble q
    | none => .nan

/-- The number of a non-decimal integer literal, `NaN` without digits. -/
def readStrBase (base : ℕ) (cs : List Char) : JsNum :=
  match readBase base cs none with
  | some n => roundDouble n
  | none => .nan

/-- StringToNumber: the number a text denotes, `0` for white space only, `NaN`
for a text that is no StringNumericLiteral. -/
def stringToNumber (s : String) : JsNum :=
  match trim s.data with
  | [] => .fin 0
  | '+' :: rest => readStrUnsigned rest
  | '-' :: rest => negNum (readStrUnsigned rest)
  | '0' :: 'x' :: rest => readStrBase 16 rest
  | '0' :: 'X' :: rest => readStrBase 16 rest
  | '0' :: 'o' :: rest => readStrBase 8 rest
  | '0' :: 'O' :: rest => readStrBase 8 rest
  | '0' :: 'b' :: rest => readStrBase 2 rest
  | '0' :: 'B' :: rest => readStrBase 2 rest
  | cs => readStrUnsigned cs

end Json

/-! ## k6/load-test.js -/

namespace LoadTest
open K6 K6.Script

/-- The constant `BASE_URL`. -/
def BASE_URL : String := "https://acesso-livre-api.onrender.com"

/-- The field `endpoints.locations`. -/
def endpoints.locations : String := BASE_URL ++ "/api/locations/"
/-- The field `endpoints.accessibilityItems`. -/
def endpoints.accessibilityItems : String := BASE_URL ++ "/api/locations/accessibility-items/"
/-- The field `endpoints.recentComments`. -/
def endpoints.recentComments : String := BASE_URL ++ "/api/comments/recent"
/-- The field `endpoints.commentIcons`. -/
def endpoints.commentIcons : String := BASE_URL ++ "/api/comments/icons/"

/-- The predicate of the check `locations has data`. -/
def locationsHasData (rt : Runtime) (r : Response) : Bool :=
  match (do
      let body ← jsonParse rt r.body
      let locations ← member (some body) "locations"
      pure locations.isSome : Except JsError Bool) with
  | .ok b => b
  | .error _ => false

/-- The condition `locationsData.locations && locationsData.locations.length > 0`. -/
def hasLocations (rt : Runtime) (locationsData : JsVal) : Except JsError Bool := do
  let l ← member (some locationsData) "locations"
  if truthyOpt l then
    let l2 ← member (some locationsData) "locations"
    let len ← member l2 "length"
    let n ← toNumberOpt rt len
    pure n.isPos
  else pure false

/-- The value of
`locationsData.locations[Math.floor(Math.random() * locationsData.locations.length)]`. -/
def randomLocation (env : Env) (locationsData : JsVal) : Except JsError (Option JsVal) := do
  let l ← member (some locationsData) "locations"
  let l2 ← member (some locationsData) "locations"
  let len ← member l2 "length"
  let n ← toNumberOpt env.rt len
  memberAt env.rt l (JsNum.mul env.random n).floor

/-- The text of `randomLocation.id` in a template literal. -/
def idText (rt : Runtime) (randomLocation : Option JsVal) : Except JsError String := do
  let id ← member randomLocation "id"
  toStrOpt rt id

/-- The body of the `try` block of steps 5 and 6. -/
def dependentSteps (env : Env) (locationsRes : Response) : Script Unit := do
  let locationsData ← eval (jsonParse env.rt locationsRes.body)
  if ← eval (hasLocations env.rt locationsData) then
    let randomLocation ← eval (randomLocation env locationsData)
    let id ← eval (idText env.rt randomLocation)
    let locationDetailRes ← httpGet env (BASE_URL ++ "/api/locations/" ++ id)
    emit (.trendAdd "locations_duration" locationDetailRes.duration)
    emit (.check "location detail status 200" (locationDetailRes.status == 200))
    emit (.rateAdd "errors" (locationDetailRes.status != 200))
    -- 6.
    let id ← eval (idText env.rt randomLocation)
    let commentsRes ← httpGet env (BASE_URL ++ "/api/comments/" ++ id ++ "/comments")
    emit (.trendAdd "comments_duration" commentsRes.duration)
    emit (.check "location comments status 200" (commentsRes.status == 200))
    emit (.rateAdd "errors" (commentsRes.status != 200))

/-- The exported default function: one iteration of a virtual user. -/
def default (env : Env) : Script Unit := do
  -- 1.
  let locationsRes ← httpGet env endpoints.locations
  emit (.trendAdd "locations_duration" locationsRes.duration)
  emit (.check "locations status 200" (locationsRes.status == 200))
  emit (.check "locations has data" (locationsHasData env.rt locationsRes))
  emit (.rateAdd "errors" (locationsRes.status != 200))
  emit (.sleep (1 / 2))
  -- 2.
  let accessibilityRes ← httpGet env endpoints.accessibilityItems
  emit (.check "accessibility items status 200" (accessibilityRes.status == 200))
  emit (.rateAdd "errors" (accessibilityRes.status != 200))
  emit (.sleep (1 / 2))
  -- 3.
  let recentCommentsRes ← httpGet env endpoints.recentComments
  emit (.trendAdd "comments_duration" recentCommentsRes.duration)
  emit (.check "recent comments status 200" (recentCommentsRes.status == 200))
  emit (.rateAdd "errors" (recentCommentsRes.status != 200))
  emit (.sleep (1 / 2))
  -- 4.
  let iconsRes ← httpGet env endpoints.commentIcons
  emit (.check "comment icons status 200" (iconsRes.status == 200))
  emit (.rateAdd "errors" (iconsRes.status != 200))
  emit (.sleep (1 / 2))
  -- 5.
  tryCatch (dependentSteps env locationsRes) (fun _ => pure ())
  emit (.sleep 1)

/-- One iteration from the start world: how it ended and what it did. -/
def iteration (env : Env) : Except JsError Unit × World :=
  default env World.start

/-- The trace of steps 5 and 6 for the id text and the two responses. -/
def dependentTrace (id : String) (r5 r6 : Response) : List Event :=
  [.httpGet (BASE_URL ++ "/api/locations/" ++ id),
   .trendAdd "locations_duration" r5.duration,
   .check "location detail status 200" (r5.status == 200),
   .rateAdd "errors" (r5.status != 200),
   .httpGet (BASE_URL ++ "/api/comments/" ++ id ++ "/comments"),
   .trendAdd "comments_duration" r6.duration,
   .check "location comments status 200" (r6.status == 200),
   .rateAdd "errors" (r6.status != 200)]

/-- The trace of steps 1 to 4 for the environment of the iteration. -/
def independentTrace (env : Env) : List Event :=
  [.httpGet endpoints.locations,
   .trendAdd "locations_duration" (env.responses 0).duration,
   .check "locations status 200" ((env.responses 0).status == 200),
   .check "locations has data" (locationsHasData env.rt (env.responses 0)),
   .rateAdd "errors" ((env.responses 0).status != 200),
   .sleep (1 / 2),
   .httpGet endpoints.accessibilityItems,
   .check "accessibility items status 200" ((env.responses 1).status == 200),
   .rateAdd "errors" ((env.responses 1).status != 200),
   .sleep (1 / 2),
   .httpGet endpoints.recentComments,
   .trendAdd "comments_duration" (env.responses 2).duration,
   .check "recent comments status 200" ((env.responses 2).status == 200),
   .rateAdd "errors" ((env.responses 2).status != 200),
   .sleep (1 / 2),
   .httpGet endpoints.commentIcons,
   .check "comment icons status 200" ((env.responses 3).status == 200),
   .rateAdd "errors" ((env.responses 3).status != 200),
   .sleep (1 / 2)]

/-- The function `textSummary(data, options)`. -/
def textSummary (rt : Runtime) (data : JsVal) (options : JsVal) : Except JsError String := do
  -- const { metrics } = data
  let metrics ← member (some data) "metrics"
  let summary := "\n========== RESUMO DO TESTE DE CARGA ==========\n\n"
  let count ← toStr rt
    (orZero (optMember (optMember (← member metrics "http_reqs") "values") "count"))
  let summary := summary ++ ("Total de Requisições: " ++ count ++ "\n")
  let avg ← callToFixed2 rt
    (orZero (optMember (optMember (← member metrics "http_req_duration") "values") "avg"))
  let summary := summary ++ ("Duração Média: " ++ avg ++ "ms\n")
  let p95 ← callToFixed2 rt
    (orZero (optMember (optMember (← member metrics "http_req_duration") "values") "p(95)"))
  let summary := summary ++ ("P95: " ++ p95 ++ "ms\n")
  let rate ← toNumber rt
    (orZero (optMember (optMember (← member metrics "errors") "values") "rate"))
  let summary := summary ++ ("Taxa de Erro: " ++ toFixed2 rt (JsNum.mul 100 rate) ++ "%\n")
  let summary := summary ++ "\n===============================================\n"
  pure summary

/-- The function `handleSummary(data)`: the destinations and their contents, in
the order of the object literal. -/
def handleSummary (rt : Runtime) (data : JsVal) : Except JsError (List (String × String)) := do
  let stdout ← textSummary rt data (.obj [("indent", .str " "), ("enableColors", .bool true)])
  let json := Json.stringify data
  pure [("stdout", stdout), ("k6/summary.json", json)]

/-- A threshold rule `aggregate < limit` or `aggregate > limit` on a metric. -/
inductive Comparator where
  | lt
  | gt
  deriving DecidableEq

/-- A parsed rule of `options.thresholds`. -/
structure Threshold where
  metric : String
  aggregate : String
  comparator : Comparator
  limit : ℚ

/-- The field `options.thresholds`: `p(95)<2000` on `http_req_duration` and
`rate<0.1` on `errors`. -/
def options.thresholds : List Threshold :=
  [⟨"http_req_duration", "p(95)", .lt, 2000⟩, ⟨"errors", "rate", .lt, 1 / 10⟩]

end LoadTest

/-! ## k6/stress-test.js -/

namespace StressTest
open K6 K6.Script

/-- The constant `BASE_URL`. -/
def BASE_URL : String := "https://acesso-livre-api.onrender.com"

/-- The exported default function: one iteration of a virtual user. -/
def default (env : Env) : Script Unit := do
  let res ← httpGet env (BASE_URL ++ "/api/locations/")
  emit (.check "status is 200" (res.status == 200))
  emit (.check "response time < 2s" (decide (res.duration < 2000)))
  emit (.rateAdd "errors" (res.status != 200))
  emit (.sleep (3 / 10))

/-- One iteration from the start world: how it ended and what it did. -/
def iteration (env : Env) : Except JsError Unit × World :=
  default env World.start

end StressTest

/-! ## Aggregation and thresholds of the engine -/

namespace K6

/-- Modelled from the spec: the aggregate of a rate metric, which is in the k6
engine: `rate` is the true-count divided by the total-count. -/
def rate (obs : List Bool) : ℚ :=
  (obs.count true : ℚ) / (obs.length : ℚ)

/-- The observations of the rate metric `errors` over the iterations of a run.
Iterations of different virtual users interleave; the counts do not depend on
the order. -/
def errorsOfRun (iteration : Env → Except JsError Unit × World) (run : List Env) : List Bool :=
  run.flatMap (fun env => rateObs "errors" (iteration env).2.trace)

/-- The final aggregates: the value of an aggregate of a metric, if there is one. -/
def Snapshot : Type := String → String → Option ℚ

/-- The snapshot of a run: the rate of `errors` comes from the observations of
the scripts, the other aggregates from the engine. -/
def snapshotOf (obs : List Bool) (engine : Snapshot) : Snapshot := fun metric aggregate =>
  if metric = "errors" ∧ aggregate = "rate" then some (rate obs) else engine metric aggregate

/-- Modelled from the spec: the evaluation of one threshold rule, which is in the
k6 engine: the aggregate is compared with the limit, and an unknown metric fails. -/
def evalThreshold (snap : Snapshot) (t : LoadTest.Threshold) : Bool :=
  match snap t.metric t.aggregate with
  | some v =>
    match t.comparator with
    | .lt => decide (v < t.limit)
    | .gt => decide (v > t.limit)
  | none => false

/-- Modelled from the spec: the overall threshold result, which is in the k6
engine: the AND of all rules. -/
def overallResult (snap : Snapshot) (ts : List LoadTest.Threshold) : Bool :=
  ts.all (evalThreshold snap)

end K6

namespace LoadTest
open K6

/-- The value `metrics.<metric>?.values?.<field>` of a metrics object. -/
def summaryValue (ms : List (String × JsVal)) (metric field : String) : Option JsVal :=
  optMember (optMember (lookup ms metric) "values") field

/-- A summarised value that is absent, falsy or a number. -/
def numberOrFalsy (v : Option JsVal) : Prop :=
  ∀ w, v = some w → truthy w = true → ∃ x, w = .num x

/-- The number `v || 0` of a summarised value that is absent, falsy or a number. -/
def shownNumber (v : Option JsVal) : JsNum :=
  match orZero v with
  | .num x => x
  | _ => .fin 0

end LoadTest

/-! ## An engine for concrete runs

The instance of `Runtime` that has the functions of ECMAScript of `Json`. -/

namespace Sample
open K6

/-- The engine of ECMAScript. -/
def runtime : Runtime where
  jsonParse := Json.parse
  stringToNumber := Json.stringToNumber
  numberToString := fun q => String.mk (Json.numberChars q)

/-- Every request is answered by an HTML error page with status 200. -/
def htmlEnv : Env where
  rt := runtime
  responses := fun _ => ⟨200, some "<html>Bad Gateway</html>", 12⟩
  random := 0

/-- The first request fails in the transport; the others are answered. -/
def offlineEnv : Env where
  rt := runtime
  responses := fun k => if k = 0 then ⟨0, none, 0⟩ else ⟨200, some "[]", 30⟩
  random := 1 / 2

/-- Every request is answered with status 500. -/
def failingEnv : Env where
  rt := runtime
  responses := fun _ => ⟨500, some "Internal Server Error", 8⟩
  random := 1 / 4

/-- Every request is answered with status 200 after five seconds. -/
def slowEnv : Env where
  rt := runtime
  responses := fun _ => ⟨200, some "[]", 5000⟩
  random := 0

/-- A locations list of two entries. -/
def listData : JsVal :=
  .obj [("locations", .arr [.obj [("id", .num (.fin 7))], .obj [("id", .num (.fin 9))]])]

/-- Every body is the JSON text of `listData`; the k-th response takes k + 1 ms. -/
def listEnv : Env where
  rt := runtime
  responses := fun k => ⟨200, some (Json.stringify listData), (k : ℚ) + 1⟩
  random := 1 / 2

/-- A locations list of three entries. -/
def threeData : JsVal :=
  .obj [("locations", .arr [.obj [("id", .num (.fin 1))], .obj [("id", .num (.fin 2))],
    .obj [("id", .num (.fin 3))]])]

/-- The random value is the binary64 number `6004799503160661 / 2^53`, just below
2/3: its exact product with 3 is below 2, its binary64 product with 3 is 2. -/
def edgeEnv : Env where
  rt := runtime
  responses := fun _ => ⟨200, some (Json.stringify threeData), 1⟩
  random := 6004799503160661 / 2 ^ 53

/-- Unparseable answers; the second response takes 2 ms, the others 1 ms. -/
def timedEnv : Env where
  rt := runtime
  responses := fun k => ⟨200, some "<html>", if k = 1 then 2 else 1⟩
  random := 0

/-- The metrics of a summary as k6 reports it. The error rate is the binary64
number nearest to 3/160: its exact product with 100 is below 1.875, its binary64
product with 100 is 1.875. -/
def summaryMetrics : List (String × JsVal) :=
  [("http_reqs", .obj [("type", .str "counter"), ("contains", .str "default"),
      ("values", .obj [("count", .num (.fin 160))])]),
   ("http_req_duration", .obj [("type", .str "trend"), ("contains", .str "time"),
      ("values", .obj [("avg", .num (.fin (301 / 2))), ("p(95)", .num (.fin (1921 / 4)))])]),
   ("errors", .obj [("type", .str "rate"), ("contains", .str "default"),
      ("values", .obj [("rate", .num (.fin (5404319552844595 / 2 ^ 58)))])])]

/-- A summary as k6 reports it. -/
def summaryData : JsVal :=
  .obj [("root_group", .obj [("name", .str ""), ("path", .str ""), ("checks", .arr [])]),
    ("state", .obj [("isStdOutTTY", .bool false),
      ("testRunDurationMs", .num (.fin (60125 / 2)))]),
    ("metrics", .obj summaryMetrics)]

/-- The text report of `summaryData`. -/
def summaryText : String :=
  "\n========== RESUMO DO TESTE DE CARGA ==========\n\nTotal de Requisições: 160\nDuração Média: 150.50ms\nP95: 480.25ms\nTaxa de Erro: 1.88%\n\n===============================================\n"

end Sample

/-! ## Runs of the dependent steps -/

namespace LoadTest
open K6 K6.Script

theorem dependentSteps_run (env : Env) (r : Response) (w : World) :
    (∃ e, dependentSteps env r w = (.error e, w)) ∨
    dependentSteps env r w = (.ok (), w) ∨
    ∃ data rl id, jsonParse env.rt r.body = .ok data ∧
      hasLocations env.rt data = .ok true ∧
      randomLocation env data = .ok rl ∧
      idText env.rt rl = .ok id ∧
      dependentSteps env r w = (.ok (), World.mk (w.issued + 2)
        (w.trace ++ dependentTrace id (env.responses w.issued) (env.responses (w.issued + 1)))) := by
  unfold dependentSteps
  simp only [bind, Script.seq, Script.eval]
  cases hp : jsonParse env.rt r.body with
  | error e => exact Or.inl ⟨e, rfl⟩
  | ok data =>
    cases hc : hasLocations env.rt data with
    | error e => exact Or.inl ⟨e, by simp [hc]⟩
    | ok c =>
      cases c with
      | false => right; left; simp [hc, pure, Script.ret]
      | true =>
        cases hr : randomLocation env data with
        | error e => exact Or.inl ⟨e, by simp [hc, hr, Script.seq, Script.eval]⟩
        | ok rl =>
          cases hi : idText env.rt rl with
          | error e => exact Or.inl ⟨e, by simp [hc, hr, hi, Script.seq, Script.eval]⟩
          | ok id =>
            right; right
            refine ⟨data, rl, id, rfl, hc, hr, hi, ?_⟩
            simp [hc, hr, hi, httpGet, Script.emit, dependentTrace, Script.seq, Script.eval]

end LoadTest

namespace LoadTest
open K6 K6.Script

theorem member_ok {v : Option JsVal} {k : String} {r : Option JsVal}
    (h : member v k = .ok r) : ∃ w, v = some w ∧ w ≠ .null ∧ r = getField w k := by
  cases v with
  | none => cases h
  | some w =>
    cases w <;> first
      | exact ⟨_, rfl, by simp, by cases h; rfl⟩
      | cases h

theorem member_some {w : JsVal} (k : String) (h : w ≠ .null) :
    member (some w) k = .ok (getField w k) := by
  cases w <;> first | exact absurd rfl h | rfl

theorem truthy_ne_null {w : JsVal} (h : truthy w = true) : w ≠ .null := by
  intro hw; rw [hw] at h; cases h

theorem hasLocations_true {rt : Runtime} {data : JsVal} (h : hasLocations rt data = .ok true) :
    ∃ locs n, data ≠ .null ∧ getField data "locations" = some locs ∧ truthy locs = true ∧
      toNumberOpt rt (getField locs "length") = .ok n ∧ n.isPos = true := by
  unfold hasLocations at h
  cases hm : member (some data) "locations" with
  | error e => rw [hm] at h; cases h
  | ok l =>
    obtain ⟨w, hw, hne, hl⟩ := member_ok hm
    cases hw
    rw [hm] at h
    simp only [bind, Except.bind] at h
    cases l with
    | none => simp [truthyOpt, pure, Except.pure] at h
    | some locs =>
      cases ht : truthy locs with
      | false => simp [truthyOpt, ht, pure, Except.pure] at h
      | true =>
        simp only [truthyOpt, ht, if_true, member_some "length" (truthy_ne_null ht)] at h
        cases hn : toNumberOpt rt (getField locs "length") with
        | error e => rw [hn] at h; cases h
        | ok n =>
          rw [hn] at h
          simp only [pure, Except.pure, Except.ok.injEq] at h
          exact ⟨locs, n, hne, hl.symm, ht, hn, h⟩

theorem randomLocation_ok {env : Env} {data locs : JsVal} {n : JsNum} {rl : Option JsVal}
    (hd : data ≠ .null) (hl : getField data "locations" = some locs)
    (ht : truthy locs = true) (hn : toNumberOpt env.rt (getField locs "length") = .ok n)
    (h : randomLocation env data = .ok rl) :
    rl = getIndexed env.rt locs (JsNum.mul env.random n).floor := by
  unfold randomLocation at h
  simp only [member_some "locations" hd, hl, bind, Except.bind,
    member_some "length" (truthy_ne_null ht), hn] at h
  have hne := truthy_ne_null ht
  cases locs <;> first
    | exact absurd rfl hne
    | (simp only [memberAt, Except.ok.injEq] at h; exact h.symm)

theorem idText_ok {rt : Runtime} {rl : Option JsVal} {id : String}
    (h : idText rt rl = .ok id) :
    ∃ elem, rl = some elem ∧ elem ≠ .null ∧ toStrOpt rt (getField elem "id") = .ok id := by
  unfold idText at h
  cases hm : member rl "id" with
  | error e => rw [hm] at h; cases h
  | ok v =>
    obtain ⟨w, hw, hne, hv⟩ := member_ok hm
    rw [hm] at h
    simp only [bind, Except.bind] at h
    exact ⟨w, hw, hne, by rw [← hv]; exact h⟩

theorem getIndexed_arr_mem {rt : Runtime} {xs : List JsVal} {i : JsNum} {x : JsVal}
    (h : getIndexed rt (.arr xs) i = some x) : x ∈ xs := by
  cases i with
  | fin q =>
    simp only [getIndexed] at h
    split at h
    · exact List.getElem?_mem h
    · cases h
  | nan => simp [getIndexed] at h
  | inf neg => simp [getIndexed] at h

theorem length_arr_pos {rt : Runtime} {xs : List JsVal} {n : JsNum}
    (hn : toNumberOpt rt (getField (.arr xs) "length") = .ok n) (hp : n.isPos = true) :
    xs ≠ [] := by
  have hf : getField (.arr xs) "length" = some (.num (.fin xs.length)) := rfl
  rw [hf] at hn
  simp only [toNumberOpt, toNumber, Except.ok.injEq] at hn
  subst hn
  intro hx
  subst hx
  simp [JsNum.isPos] at hp

theorem dependentSteps_parse_error (env : Env) (r : Response) (w : World) (e : JsError)
    (h : jsonParse env.rt r.body = .error e) :
    dependentSteps env r w = (.error e, w) := by
  unfold dependentSteps
  simp [bind, Script.seq, Script.eval, h]

theorem iteration_eq (env : Env) :
    iteration env =
      (.ok (), World.mk (dependentSteps env (env.responses 0) ⟨4, independentTrace env⟩).2.issued
        ((dependentSteps env (env.responses 0) ⟨4, independentTrace env⟩).2.trace ++
          [.sleep 1])) := by
  simp only [iteration, LoadTest.default, bind, Script.seq, httpGet, Script.emit,
    Script.tryCatch, World.start, pure, Script.ret]
  simp only [List.nil_append, List.cons_append, Nat.zero_add, Nat.reduceAdd]
  rcases hd : dependentSteps env (env.responses 0) ⟨4, independentTrace env⟩ with ⟨res, w1⟩
  simp only [independentTrace] at hd
  rw [hd]
  cases res <;> rfl

/-- The two ways an iteration runs: four requests, or six. -/
theorem iteration_cases (env : Env) :
    iteration env = (.ok (), ⟨4, independentTrace env ++ [.sleep 1]⟩) ∨
    ∃ data rl id, jsonParse env.rt (env.responses 0).body = .ok data ∧
      hasLocations env.rt data = .ok true ∧
      randomLocation env data = .ok rl ∧
      idText env.rt rl = .ok id ∧
      iteration env = (.ok (), ⟨6, independentTrace env ++
        dependentTrace id (env.responses 4) (env.responses 5) ++ [.sleep 1]⟩) := by
  rw [iteration_eq]
  rcases dependentSteps_run env (env.responses 0) ⟨4, independentTrace env⟩ with
    ⟨e, h⟩ | h | ⟨data, rl, id, hp, hc, hr, hi, h⟩
  · left; rw [h]
  · left; rw [h]
  · right; exact ⟨data, rl, id, hp, hc, hr, hi, by rw [h]⟩

/-- The two ways an iteration runs, with what the six-request run read from the
first response. -/
theorem iteration_detail (env : Env) :
    iteration env = (.ok (), ⟨4, independentTrace env ++ [.sleep 1]⟩) ∨
    ∃ data locs n elem id, jsonParse env.rt (env.responses 0).body = .ok data ∧
      getField data "locations" = some locs ∧ truthy locs = true ∧
      toNumberOpt env.rt (getField locs "length") = .ok n ∧ n.isPos = true ∧
      getIndexed env.rt locs (JsNum.mul env.random n).floor = some elem ∧
      toStrOpt env.rt (getField elem "id") = .ok id ∧
      iteration env = (.ok (), ⟨6, independentTrace env ++
        dependentTrace id (env.responses 4) (env.responses 5) ++ [.sleep 1]⟩) := by
  rcases iteration_cases env with h | ⟨data, rl, id, hp, hc, hr, hi, h⟩
  · exact Or.inl h
  · right
    obtain ⟨locs, n, hd, hl, ht, hn, hpos⟩ := hasLocations_true hc
    obtain ⟨elem, he, _, hid⟩ := idText_ok hi
    have hrl := randomLocation_ok hd hl ht hn hr
    exact ⟨data, locs, n, elem, id, hp, hl, ht, hn, hpos, by rw [← hrl, he], hid, h⟩

theorem urls_independentTrace (env : Env) (rest : List Event) :
    urls (independentTrace env ++ rest) =
      [BASE_URL ++ "/api/locations/", BASE_URL ++ "/api/locations/accessibility-items/",
        BASE_URL ++ "/api/comments/recent", BASE_URL ++ "/api/comments/icons/"] ++ urls rest := by
  simp [independentTrace, urls, endpoints.locations, endpoints.accessibilityItems,
    endpoints.recentComments, endpoints.commentIcons]

theorem rateObs_independentTrace (env : Env) (rest : List Event) :
    rateObs "errors" (independentTrace env ++ rest) =
      [(env.responses 0).status != 200, (env.responses 1).status != 200,
        (env.responses 2).status != 200, (env.responses 3).status != 200] ++
        rateObs "errors" rest := by
  simp [independentTrace, rateObs]

theorem trendObs_independentTrace (env : Env) (m : String) (rest : List Event) :
    trendObs m (independentTrace env ++ rest) =
      (if "locations_duration" = m then [(env.responses 0).duration] else []) ++
      ((if "comments_duration" = m then [(env.responses 2).duration] else []) ++
        trendObs m rest) := by
  by_cases h1 : "locations_duration" = m <;> by_cases h2 : "comments_duration" = m <;>
    simp [independentTrace, trendObs, h1, h2]

theorem trendObs_dependentTrace (id : String) (r5 r6 : Response) (m : String) :
    trendObs m (dependentTrace id r5 r6 ++ [.sleep 1]) =
      (if "locations_duration" = m then [r5.duration] else []) ++
      (if "comments_duration" = m then [r6.duration] else []) := by
  by_cases h1 : "locations_duration" = m <;> by_cases h2 : "comments_duration" = m <;>
    simp [dependentTrace, trendObs, h1, h2]

theorem iteration_ok (env : Env) : (iteration env).1 = .ok () := by
  rw [iteration_eq]

theorem iteration_issued (env : Env) :
    (iteration env).2.issued = 4 ∨ (iteration env).2.issued = 6 := by
  rcases iteration_cases env with h | ⟨_, _, _, _, _, _, _, h⟩ <;> rw [h]
  · exact Or.inl rfl
  · exact Or.inr rfl

theorem iteration_rateObs (env : Env) :
    rateObs "errors" (iteration env).2.trace =
      (List.range (iteration env).2.issued).map (fun k => (env.responses k).status != 200) := by
  rcases iteration_cases env with h | ⟨_, _, id, _, _, _, _, h⟩ <;> rw [h]
  · show rateObs "errors" (independentTrace env ++ [.sleep 1]) = _
    rw [rateObs_independentTrace]; rfl
  · show rateObs "errors" (independentTrace env ++ dependentTrace id _ _ ++ [.sleep 1]) = _
    rw [List.append_assoc, rateObs_independentTrace]; rfl

theorem iteration_urls_take (env : Env) :
    (urls (iteration env).2.trace).take 4 =
      [BASE_URL ++ "/api/locations/", BASE_URL ++ "/api/locations/accessibility-items/",
        BASE_URL ++ "/api/comments/recent", BASE_URL ++ "/api/comments/icons/"] := by
  rcases iteration_cases env with h | ⟨_, _, id, _, _, _, _, h⟩ <;> rw [h]
  · show (urls (independentTrace env ++ [.sleep 1])).take 4 = _
    rw [urls_independentTrace]; rfl
  · show (urls (independentTrace env ++ dependentTrace id _ _ ++ [.sleep 1])).take 4 = _
    rw [List.append_assoc, urls_independentTrace]; rfl

theorem iteration_urls_length (env : Env) :
    (urls (iteration env).2.trace).length = (iteration env).2.issued := by
  rcases iteration_cases env with h | ⟨_, _, id, _, _, _, _, h⟩ <;> rw [h]
  · show (urls (independentTrace env ++ [.sleep 1])).length = 4
    rw [urls_independentTrace]; rfl
  · show (urls (independentTrace env ++ dependentTrace id _ _ ++ [.sleep 1])).length = 6
    rw [List.append_assoc, urls_independentTrace]; rfl

theorem iteration_last (env : Env) :
    (iteration env).2.trace.getLast? = some (.sleep 1) := by
  rw [iteration_eq]; simp

/-- C1. When the body of the first response is not parseable as JSON, the
iteration returns normally; it issues exactly the four independent GETs, adds one
`errors` observation for each of them, skips steps 5 and 6 altogether and ends
with `sleep(1)`. -/
theorem C1_parse_failure_skips_dependent_steps (env : Env)
    (h : jsonParse env.rt (env.responses 0).body = .error .syntaxError) :
    iteration env = (.ok (), ⟨4, independentTrace env ++ [.sleep 1]⟩) ∧
    urls (iteration env).2.trace =
      [BASE_URL ++ "/api/locations/", BASE_URL ++ "/api/locations/accessibility-items/",
        BASE_URL ++ "/api/comments/recent", BASE_URL ++ "/api/comments/icons/"] ∧
    rateObs "errors" (iteration env).2.trace =
      [(env.responses 0).status != 200, (env.responses 1).status != 200,
        (env.responses 2).status != 200, (env.responses 3).status != 200] ∧
    (iteration env).2.trace.getLast? = some (.sleep 1) := by
  have he : iteration env = (.ok (), ⟨4, independentTrace env ++ [.sleep 1]⟩) := by
    rw [iteration_eq, dependentSteps_parse_error env _ _ _ h]
  refine ⟨he, ?_, ?_, ?_⟩
  · rw [he]
    show urls (independentTrace env ++ [.sleep 1]) = _
    rw [urls_independentTrace]; rfl
  · rw [he]
    show rateObs "errors" (independentTrace env ++ [.sleep 1]) = _
    rw [rateObs_independentTrace]; rfl
  · rw [he]; simp

/-- C9. An iteration issues exactly 4 or exactly 6 requests; it adds as many
`errors` observations as it issues requests, the k-th being true exactly when the
status of the k-th response differs from 200; and it issues 6 only if the body of
the first response parses to a value whose `locations` has a length above 0 (for
an array: is not empty). -/
theorem C9_four_or_six_requests (env : Env) :
    ((iteration env).2.issued = 4 ∨ (iteration env).2.issued = 6) ∧
    (urls (iteration env).2.trace).length = (iteration env).2.issued ∧
    rateObs "errors" (iteration env).2.trace =
      (List.range (iteration env).2.issued).map (fun k => (env.responses k).status != 200) ∧
    ((iteration env).2.issued = 6 →
      ∃ data locs n, jsonParse env.rt (env.responses 0).body = .ok data ∧
        getField data "locations" = some locs ∧
        toNumberOpt env.rt (getField locs "length") = .ok n ∧ n.isPos = true ∧
        ∀ xs, locs = .arr xs → xs ≠ []) := by
  rcases iteration_detail env with h | ⟨data, locs, n, elem, id, hp, hl, ht, hn, hpos, he, hid, h⟩
  · rw [h]
    refine ⟨Or.inl rfl, ?_, ?_, ?_⟩
    · show (urls (independentTrace env ++ [.sleep 1])).length = 4
      rw [urls_independentTrace]; rfl
    · show rateObs "errors" (independentTrace env ++ [.sleep 1]) = _
      rw [rateObs_independentTrace]; rfl
    · intro h6; cases h6
  · rw [h]
    refine ⟨Or.inr rfl, ?_, ?_, ?_⟩
    · show (urls (independentTrace env ++ dependentTrace id _ _ ++ [.sleep 1])).length = 6
      rw [List.append_assoc, urls_independentTrace]; rfl
    · show rateObs "errors" (independentTrace env ++ dependentTrace id _ _ ++ [.sleep 1]) = _
      rw [List.append_assoc, rateObs_independentTrace]; rfl
    · intro _
      refine ⟨data, locs, n, hp, hl, hn, hpos, ?_⟩
      intro xs hxs
      subst hxs
      exact length_arr_pos hn hpos

/-- C7. The requested URLs start with the four list endpoints in the declared
order; when more requests follow, they are `/api/locations/{id}` and then
`/api/comments/{id}/comments` for one text `id`, the text of the `id` of an
indexed member of the `locations` read from the first response (for an array: of
one of its elements). -/
theorem C7_declared_order (env : Env) :
    (urls (iteration env).2.trace).take 4 =
      [BASE_URL ++ "/api/locations/", BASE_URL ++ "/api/locations/accessibility-items/",
        BASE_URL ++ "/api/comments/recent", BASE_URL ++ "/api/comments/icons/"] ∧
    (urls (iteration env).2.trace =
      [BASE_URL ++ "/api/locations/", BASE_URL ++ "/api/locations/accessibility-items/",
        BASE_URL ++ "/api/comments/recent", BASE_URL ++ "/api/comments/icons/"] ∨
     ∃ data locs i elem id, jsonParse env.rt (env.responses 0).body = .ok data ∧
        getField data "locations" = some locs ∧
        getIndexed env.rt locs i = some elem ∧
        (∀ xs, locs = .arr xs → elem ∈ xs) ∧
        toStrOpt env.rt (getField elem "id") = .ok id ∧
        urls (iteration env).2.trace =
          [BASE_URL ++ "/api/locations/", BASE_URL ++ "/api/locations/accessibility-items/",
            BASE_URL ++ "/api/comments/recent", BASE_URL ++ "/api/comments/icons/",
            BASE_URL ++ "/api/locations/" ++ id,
            BASE_URL ++ "/api/comments/" ++ id ++ "/comments"]) := by
  rcases iteration_detail env with h | ⟨data, locs, n, elem, id, hp, hl, ht, hn, hpos, he, hid, h⟩
  · have hu : urls (iteration env).2.trace = [BASE_URL ++ "/api/locations/", BASE_URL ++ "/api/locations/accessibility-items/",
        BASE_URL ++ "/api/comments/recent", BASE_URL ++ "/api/comments/icons/"] ++ urls [.sleep 1] := by
      rw [h]
      show urls (independentTrace env ++ [.sleep 1]) = _
      rw [urls_independentTrace]
    rw [hu]
    exact ⟨rfl, Or.inl rfl⟩
  · have hu : urls (iteration env).2.trace = [BASE_URL ++ "/api/locations/", BASE_URL ++ "/api/locations/accessibility-items/",
        BASE_URL ++ "/api/comments/recent", BASE_URL ++ "/api/comments/icons/"] ++
        urls (dependentTrace id (env.responses 4) (env.responses 5) ++ [.sleep 1]) := by
      rw [h]
      show urls (independentTrace env ++ dependentTrace id _ _ ++ [.sleep 1]) = _
      rw [List.append_assoc, urls_independentTrace]
    rw [hu]
    refine ⟨rfl, Or.inr ⟨data, locs, _, elem, id, hp, hl, he, ?_, hid, rfl⟩⟩
    intro xs hxs
    subst hxs
    exact getIndexed_arr_mem he

/-- C2. A transport failure of a request of the iteration (status 0, body `null`
or empty) adds the observation `true` to `errors` for that request and stops
nothing: the iteration returns normally, the four independent GETs are issued,
every request issued has its `errors` observation, a failure after the fourth
request still has step 6 follow, and the final `sleep(1)` is reached. -/
theorem C2_transport_failure_is_recorded (env : Env) (k : Nat)
    (hk : k < (iteration env).2.issued)
    (hs : (env.responses k).status = 0)
    (_hb : (env.responses k).body = none ∨ (env.responses k).body = some "") :
    (iteration env).1 = .ok () ∧
    (rateObs "errors" (iteration env).2.trace)[k]? = some true ∧
    (urls (iteration env).2.trace).take 4 =
      [BASE_URL ++ "/api/locations/", BASE_URL ++ "/api/locations/accessibility-items/",
        BASE_URL ++ "/api/comments/recent", BASE_URL ++ "/api/comments/icons/"] ∧
    (urls (iteration env).2.trace).length = (iteration env).2.issued ∧
    (rateObs "errors" (iteration env).2.trace).length = (iteration env).2.issued ∧
    (4 ≤ k → (iteration env).2.issued = 6) ∧
    (iteration env).2.trace.getLast? = some (.sleep 1) := by
  refine ⟨iteration_ok env, ?_, iteration_urls_take env, iteration_urls_length env, ?_, ?_,
    iteration_last env⟩
  · rw [iteration_rateObs]
    simp [hk, hs]
  · rw [iteration_rateObs]; simp
  · intro h4
    rcases iteration_issued env with h | h
    · omega
    · exact h

/-- C8, as the code has it. Every request has its outcome added to `errors`; the
duration of the response is added to `locations_duration` for the locations list
and the location detail, to `comments_duration` for the recent comments and the
location comments; the requests for the accessibility items and the comment
icons add no duration, and no other trend metric receives a value. -/
theorem C8_durations_of_four_steps (env : Env) :
    rateObs "errors" (iteration env).2.trace =
      (List.range (iteration env).2.issued).map (fun k => (env.responses k).status != 200) ∧
    trendObs "locations_duration" (iteration env).2.trace =
      (env.responses 0).duration ::
        (if (iteration env).2.issued = 6 then [(env.responses 4).duration] else []) ∧
    trendObs "comments_duration" (iteration env).2.trace =
      (env.responses 2).duration ::
        (if (iteration env).2.issued = 6 then [(env.responses 5).duration] else []) ∧
    ∀ m, m ≠ "locations_duration" → m ≠ "comments_duration" →
      trendObs m (iteration env).2.trace = [] := by
  refine ⟨iteration_rateObs env, ?_⟩
  rcases iteration_cases env with h | ⟨_, _, id, _, _, _, _, h⟩
  · rw [h]
    refine ⟨?_, ?_, ?_⟩
    · show trendObs _ (independentTrace env ++ [.sleep 1]) = _
      rw [trendObs_independentTrace]; simp [trendObs]
    · show trendObs _ (independentTrace env ++ [.sleep 1]) = _
      rw [trendObs_independentTrace]; simp [trendObs]
    · intro m h1 h2
      show trendObs _ (independentTrace env ++ [.sleep 1]) = _
      rw [trendObs_independentTrace]; simp [trendObs, Ne.symm h1, Ne.symm h2]
  · rw [h]
    refine ⟨?_, ?_, ?_⟩
    · show trendObs _ (independentTrace env ++ dependentTrace id _ _ ++ [.sleep 1]) = _
      rw [List.append_assoc, trendObs_independentTrace, trendObs_dependentTrace]; simp
    · show trendObs _ (independentTrace env ++ dependentTrace id _ _ ++ [.sleep 1]) = _
      rw [List.append_assoc, trendObs_independentTrace, trendObs_dependentTrace]; simp
    · intro m h1 h2
      show trendObs _ (independentTrace env ++ dependentTrace id _ _ ++ [.sleep 1]) = _
      rw [List.append_assoc, trendObs_independentTrace, trendObs_dependentTrace]
      simp [Ne.symm h1, Ne.symm h2]

end LoadTest




namespace K6

theorem rate_eq_one {obs : List Bool} (hne : obs ≠ []) (h : ∀ b ∈ obs, b = true) :
    rate obs = 1 := by
  unfold rate
  have hc : obs.count true = obs.length :=
    List.count_eq_length.mpr (fun b hb => (h b hb).symm)
  rw [hc]
  have hl : (obs.length : ℚ) ≠ 0 := by
    exact_mod_cast (List.length_pos.mpr hne).ne'
  exact div_self hl

theorem rate_eq_zero {obs : List Bool} (h : ∀ b ∈ obs, b = false) : rate obs = 0 := by
  unfold rate
  have hc : obs.count true = 0 :=
    List.count_eq_zero.mpr (fun hm => by have := h true hm; cases this)
  rw [hc]
  simp

end K6

namespace LoadTest
open K6 K6.Script

/-- C3. In a run of at least one iteration in which every response has status
500, every observation added to `errors` is true and the rate is exactly 1; the
rule `rate<0.1` on `errors` is false and the overall result of
`options.thresholds` is fail, whatever the other aggregates are. -/
theorem C3_all_500_fails_thresholds (run : List Env) (engine : Snapshot)
    (hne : run ≠ [])
    (h500 : ∀ env ∈ run, ∀ k, (env.responses k).status = 500) :
    (∀ b ∈ errorsOfRun iteration run, b = true) ∧
    rate (errorsOfRun iteration run) = 1 ∧
    evalThreshold (snapshotOf (errorsOfRun iteration run) engine)
      ⟨"errors", "rate", .lt, 1 / 10⟩ = false ∧
    overallResult (snapshotOf (errorsOfRun iteration run) engine) options.thresholds = false := by
  have hall : ∀ b ∈ errorsOfRun iteration run, b = true := by
    intro b hb
    simp only [errorsOfRun, List.mem_flatMap] at hb
    obtain ⟨env, henv, hb⟩ := hb
    rw [iteration_rateObs] at hb
    simp only [List.mem_map, List.mem_range] at hb
    obtain ⟨k, _, hk⟩ := hb
    rw [h500 env henv k] at hk
    exact hk.symm
  have hnonempty : errorsOfRun iteration run ≠ [] := by
    cases run with
    | nil => exact absurd rfl hne
    | cons env rest =>
      intro hnil
      have hlen : (rateObs "errors" (iteration env).2.trace).length = 0 := by
        have := congrArg List.length hnil
        simp only [errorsOfRun, List.flatMap_cons, List.length_append, List.length_nil] at this
        omega
      rw [iteration_rateObs] at hlen
      simp only [List.length_map, List.length_range] at hlen
      rcases iteration_issued env with h | h <;> omega
  have hrate := rate_eq_one hnonempty hall
  have hrule : evalThreshold (snapshotOf (errorsOfRun iteration run) engine)
      ⟨"errors", "rate", .lt, 1 / 10⟩ = false := by
    simp only [evalThreshold, snapshotOf, and_self, if_true, hrate]
    norm_num
  refine ⟨hall, hrate, hrule, ?_⟩
  simp only [overallResult, options.thresholds, List.all_cons, hrule, Bool.and_false,
    Bool.false_and]

end LoadTest

namespace StressTest
open K6 K6.Script

theorem stress_iteration_eq (env : Env) :
    iteration env = (.ok (), ⟨1,
      [.httpGet (BASE_URL ++ "/api/locations/"),
       .check "status is 200" ((env.responses 0).status == 200),
       .check "response time < 2s" (decide ((env.responses 0).duration < 2000)),
       .rateAdd "errors" ((env.responses 0).status != 200),
       .sleep (3 / 10)]⟩) := by
  simp [iteration, StressTest.default, bind, Script.seq, httpGet, Script.emit, World.start]

/-- C4. In a run of the stress test in which every response has status 200, each
iteration issues one GET and adds exactly one observation to `errors`, which is
false, whatever the duration of the response and the outcome of the check
`response time < 2s`; the final error rate is exactly 0. -/
theorem C4_all_200_error_rate_zero (run : List Env)
    (h200 : ∀ env ∈ run, (env.responses 0).status = 200) :
    (∀ env ∈ run,
      iteration env = (.ok (), ⟨1,
        [.httpGet (BASE_URL ++ "/api/locations/"),
         .check "status is 200" true,
         .check "response time < 2s" (decide ((env.responses 0).duration < 2000)),
         .rateAdd "errors" false,
         .sleep (3 / 10)]⟩) ∧
      rateObs "errors" (iteration env).2.trace = [false]) ∧
    rate (errorsOfRun iteration run) = 0 := by
  have h1 : ∀ env ∈ run, iteration env = (.ok (), ⟨1,
        [.httpGet (BASE_URL ++ "/api/locations/"),
         .check "status is 200" true,
         .check "response time < 2s" (decide ((env.responses 0).duration < 2000)),
         .rateAdd "errors" false,
         .sleep (3 / 10)]⟩) := by
    intro env henv
    rw [stress_iteration_eq, h200 env henv]
    rfl
  have h2 : ∀ env ∈ run, rateObs "errors" (iteration env).2.trace = [false] := by
    intro env henv
    rw [h1 env henv]
    rfl
  refine ⟨fun env henv => ⟨h1 env henv, h2 env henv⟩, ?_⟩
  apply rate_eq_zero
  intro b hb
  simp only [errorsOfRun, List.mem_flatMap] at hb
  obtain ⟨env, henv, hb⟩ := hb
  rw [h2 env henv] at hb
  simpa using hb

end StressTest

/-! ## Binary64 rounding -/

namespace K6

theorem roundHalfEven_le (m : ℚ) : (roundHalfEven m : ℚ) ≤ m + 1 / 2 := by
  unfold roundHalfEven
  have h1 := Int.floor_le m
  split_ifs with h h' h''
  · linarith
  · push_cast; linarith [Int.lt_floor_add_one m]
  · linarith
  · push_cast
    have : m - ⌊m⌋ = 1 / 2 := le_antisymm (not_lt.mp h') (not_lt.mp h)
    linarith

theorem roundHalfEven_ge (m : ℚ) : m - 1 / 2 ≤ (roundHalfEven m : ℚ) := by
  unfold roundHalfEven
  have h1 := Int.floor_le m
  have h2 := Int.lt_floor_add_one m
  split_ifs with h h' h''
  · linarith
  · push_cast; linarith
  · have : m - ⌊m⌋ = 1 / 2 := le_antisymm (not_lt.mp h') (not_lt.mp h)
    linarith
  · push_cast; linarith

theorem roundHalfEven_nonneg {m : ℚ} (h : 0 ≤ m) : 0 ≤ roundHalfEven m := by
  unfold roundHalfEven
  have h1 : 0 ≤ ⌊m⌋ := Int.floor_nonneg.mpr h
  split_ifs <;> omega

theorem roundHalfEven_intCast (z : ℤ) : roundHalfEven (z : ℚ) = z := by
  unfold roundHalfEven
  simp

theorem binade_zpow_pos (x : ℚ) : (0 : ℚ) < 2 ^ (binade x - 52) := by positivity

/-- Two to the binade is at most the number or the least normal number. -/
theorem two_zpow_binade_le {x : ℚ} (hx : 0 < x) :
    (2 : ℚ) ^ binade x ≤ max x (2 ^ (-1022 : ℤ)) := by
  unfold binade
  rcases le_total (Int.log 2 x) (-1022) with h | h
  · rw [max_eq_right h]; exact le_max_right _ _
  · rw [max_eq_left h]
    exact le_trans (by exact_mod_cast Int.zpow_log_le_self (by norm_num : 1 < 2) hx) (le_max_left _ _)

/-- The rounding error is at most half a unit in the last place, upwards. -/
theorem roundDouble_le_add {x : ℚ} (hx : 0 ≤ x) :
    (roundHalfEven (|x| / 2 ^ (binade |x| - 52)) : ℚ) * 2 ^ (binade |x| - 52) ≤
      x + 2 ^ (binade x - 53) := by
  rw [abs_of_nonneg hx]
  have hq := binade_zpow_pos x
  have h := roundHalfEven_le (x / 2 ^ (binade x - 52))
  have h2 : (roundHalfEven (x / 2 ^ (binade x - 52)) : ℚ) * 2 ^ (binade x - 52) ≤
      (x / 2 ^ (binade x - 52) + 1 / 2) * 2 ^ (binade x - 52) :=
    mul_le_mul_of_nonneg_right h hq.le
  have h3 : (x / 2 ^ (binade x - 52) + 1 / 2) * 2 ^ (binade x - 52) =
      x + 2 ^ (binade x - 53) := by
    have : (2 : ℚ) ^ (binade x - 52) = 2 ^ (binade x - 53) * 2 := by
      rw [← zpow_add_one₀ (by norm_num : (2 : ℚ) ≠ 0)]
      congr 1; ring
    field_simp
    rw [this]; ring
  linarith

/-- A product with a factor at most `1 - 2^-53` rounds below the other factor. -/
theorem roundDouble_lt {x n : ℚ} (hx : 0 ≤ x) (hn1 : 1 ≤ n) (hn2 : n ≤ 2 ^ 1024)
    (hxn : x ≤ n * (1 - 2 ^ (-53 : ℤ))) :
    ∃ y, roundDouble x = .fin y ∧ 0 ≤ y ∧ y < n := by
  have hy0 : 0 ≤ (roundHalfEven (|x| / 2 ^ (binade |x| - 52)) : ℚ) * 2 ^ (binade |x| - 52) := by
    apply mul_nonneg
    · exact_mod_cast roundHalfEven_nonneg (div_nonneg (abs_nonneg x) (binade_zpow_pos _).le)
    · exact (binade_zpow_pos _).le
  have hylt : (roundHalfEven (|x| / 2 ^ (binade |x| - 52)) : ℚ) * 2 ^ (binade |x| - 52) < n := by
    rcases hx.eq_or_lt with h0 | hpos
    · subst h0
      simp [roundHalfEven]
      linarith
    · have hle := roundDouble_le_add hx
      have hb := two_zpow_binade_le hpos
      have hxlt : x < n := by
        have : n * (1 - 2 ^ (-53 : ℤ)) < n := by
          have : (0 : ℚ) < 2 ^ (-53 : ℤ) := by positivity
          nlinarith
        linarith
      have hsmall : (2 : ℚ) ^ (-1022 : ℤ) < n := by
        have : (2 : ℚ) ^ (-1022 : ℤ) < 1 := by
          rw [zpow_neg]; apply inv_lt_one_of_one_lt₀; norm_num
        linarith
      have hb2 : (2 : ℚ) ^ binade x < n := lt_of_le_of_lt hb (max_lt hxlt hsmall)
      have hhalf : (2 : ℚ) ^ (binade x - 53) = 2 ^ binade x * 2 ^ (-53 : ℤ) := by
        rw [← zpow_add₀ (by norm_num : (2 : ℚ) ≠ 0)]; congr 1
      have h53 : (0 : ℚ) < 2 ^ (-53 : ℤ) := by positivity
      have : (2 : ℚ) ^ (binade x - 53) < n * 2 ^ (-53 : ℤ) := by
        rw [hhalf]; exact mul_lt_mul_of_pos_right hb2 h53
      linarith
  refine ⟨_, ?_, hy0, hylt⟩
  unfold roundDouble
  simp only
  rw [if_neg (not_le.mpr (lt_of_lt_of_le hylt hn2)), if_neg (not_lt.mpr hx)]

theorem log_neg_of_lt_one {x : ℚ} (hx0 : 0 < x) (hx1 : x < 1) : Int.log 2 x ≤ -1 := by
  by_contra h
  push_neg at h
  have h0 : 0 ≤ Int.log 2 x := by omega
  have h1 : (1 : ℚ) ≤ 2 ^ Int.log 2 x := one_le_zpow₀ (by norm_num) h0
  have h2 : ((2 : ℕ) : ℚ) ^ Int.log 2 x ≤ x := Int.zpow_log_le_self (by norm_num) hx0
  have h3 : (2 : ℚ) ^ Int.log 2 x ≤ x := by exact_mod_cast h2
  linarith

/-- A binary64 number below 1 is at most `1 - 2^-53`. -/
theorem IsDouble.le_pred_one {r : ℚ} (hd : IsDouble r) (h0 : 0 ≤ r) (h1 : r < 1) :
    r ≤ 1 - 2 ^ (-53 : ℤ) := by
  rcases h0.eq_or_lt with h | hpos
  · subst h
    have : (0 : ℚ) < 1 - 2 ^ (-53 : ℤ) := by
      have : (2 : ℚ) ^ (-53 : ℤ) < 1 := by
        rw [zpow_neg]; apply inv_lt_one_of_one_lt₀; norm_num
      linarith
    exact this.le
  · have hL := log_neg_of_lt_one hpos h1
    have hlt : r < (2 : ℚ) ^ (Int.log 2 r + 1) := by
      exact_mod_cast Int.lt_zpow_succ_log_self (by norm_num : 1 < 2) r
    rcases lt_or_le (Int.log 2 r) (-1) with hlow | hhigh
    · have : (2 : ℚ) ^ (Int.log 2 r + 1) ≤ 2 ^ (-1 : ℤ) :=
        zpow_le_zpow_right₀ (by norm_num) (by omega)
      have h2 : (2 : ℚ) ^ (-1 : ℤ) ≤ 1 - 2 ^ (-53 : ℤ) := by
        rw [zpow_neg, zpow_neg]; norm_num
      linarith
    · have hlog : Int.log 2 r = -1 := le_antisymm hL hhigh
      have hb : binade r = -1 := by
        unfold binade; rw [hlog]; rfl
      unfold IsDouble roundDouble at hd
      simp only [abs_of_nonneg h0, hb] at hd
      split_ifs at hd with hbig hneg
      · exact absurd hneg (not_lt.mpr h0)
      · simp only [JsNum.fin.injEq] at hd
        have hq : (2 : ℚ) ^ ((-1 : ℤ) - 52) = 2 ^ (-53 : ℤ) := by norm_num
        rw [hq] at hd
        have hm : (roundHalfEven (r / 2 ^ (-53 : ℤ)) : ℚ) < 2 ^ 53 := by
          have h53 : (0 : ℚ) < 2 ^ (-53 : ℤ) := by positivity
          have : (roundHalfEven (r / 2 ^ (-53 : ℤ)) : ℚ) * 2 ^ (-53 : ℤ) < 2 ^ 53 * 2 ^ (-53 : ℤ) := by
            rw [hd]
            have : (2 : ℚ) ^ 53 * 2 ^ (-53 : ℤ) = 1 := by
              rw [zpow_neg]; norm_num
            linarith
          exact lt_of_mul_lt_mul_right this h53.le
        have hm' : roundHalfEven (r / 2 ^ (-53 : ℤ)) ≤ 2 ^ 53 - 1 := by
          have : roundHalfEven (r / 2 ^ (-53 : ℤ)) < 2 ^ 53 := by exact_mod_cast hm
          omega
        have hm'' : (roundHalfEven (r / 2 ^ (-53 : ℤ)) : ℚ) ≤ 2 ^ 53 - 1 := by exact_mod_cast hm'
        rw [← hd]
        have h53 : (0 : ℚ) < 2 ^ (-53 : ℤ) := by positivity
        calc (roundHalfEven (r / 2 ^ (-53 : ℤ)) : ℚ) * 2 ^ (-53 : ℤ)
            ≤ (2 ^ 53 - 1) * 2 ^ (-53 : ℤ) := mul_le_mul_of_nonneg_right hm'' h53.le
          _ = 1 - 2 ^ (-53 : ℤ) := by rw [zpow_neg]; norm_num

theorem log_two_eq {x : ℚ} {e : ℤ} (hlo : (2 : ℚ) ^ e ≤ x) (hhi : x < 2 ^ (e + 1)) :
    Int.log 2 x = e := by
  have hx : 0 < x := lt_of_lt_of_le (by positivity) hlo
  apply le_antisymm
  · have := (Int.lt_zpow_iff_log_lt (R := ℚ) (by norm_num : 1 < 2) hx).mp
      (by exact_mod_cast hhi : x < ((2 : ℕ) : ℚ) ^ (e + 1))
    omega
  · exact (Int.zpow_le_iff_le_log (R := ℚ) (by norm_num : 1 < 2) hx).mp
      (by exact_mod_cast hlo)

/-- A multiple of the unit of its binade is held exactly. -/
theorem isDouble_of {x : ℚ} (e m : ℤ) (he : -1022 ≤ e) (he2 : e ≤ 1023)
    (hlo : (2 : ℚ) ^ e ≤ |x|) (hhi : |x| < 2 ^ (e + 1))
    (hm : |x| = (m : ℚ) * 2 ^ (e - 52)) : IsDouble x := by
  have hb : binade |x| = e := by
    unfold binade; rw [log_two_eq hlo hhi]; exact max_eq_left he
  have hq : (0 : ℚ) < 2 ^ (e - 52) := by positivity
  have hdiv : |x| / 2 ^ (e - 52) = (m : ℚ) := by
    rw [hm]; field_simp
  have hbig : ¬ ((2 : ℚ) ^ 1024 ≤ |x|) := by
    have : (2 : ℚ) ^ (e + 1) ≤ 2 ^ ((1024 : ℕ) : ℤ) :=
      zpow_le_zpow_right₀ (by norm_num) (by omega)
    rw [zpow_natCast] at this
    linarith
  unfold IsDouble roundDouble
  simp only [hb, hdiv, roundHalfEven_intCast, ← hm, if_neg hbig]
  congr 1
  split_ifs with hneg
  · rw [abs_of_neg hneg]; ring
  · exact abs_of_nonneg (not_lt.mp hneg)

theorem isDouble_zero : IsDouble 0 := by
  unfold IsDouble roundDouble
  simp [roundHalfEven]

theorem roundDouble_zero : roundDouble 0 = .fin 0 := isDouble_zero

/-- The binary64 value of a positive number from its binade and the rounding of
its scaled significand. -/
theorem roundDouble_eval {x : ℚ} (e k : ℤ) (he : -1022 ≤ e)
    (hlo : (2 : ℚ) ^ e ≤ x) (hhi : x < 2 ^ (e + 1))
    (hk : roundHalfEven (x / 2 ^ (e - 52)) = k)
    (hfin : (k : ℚ) * 2 ^ (e - 52) < 2 ^ 1024) :
    roundDouble x = .fin ((k : ℚ) * 2 ^ (e - 52)) := by
  have hx : 0 < x := lt_of_lt_of_le (by positivity) hlo
  have hb : binade x = e := by
    unfold binade; rw [log_two_eq hlo hhi]; exact max_eq_left he
  unfold roundDouble
  simp only [abs_of_pos hx, hb, hk, if_neg (not_le.mpr hfin), if_neg (not_lt.mpr hx.le)]

end K6

/-! ## The JSON round trip -/

namespace Json
open K6

/-! ### Reading decimal digits -/

theorem digitsValue_append (acc : ℕ) (l1 l2 : List Char) :
    digitsValue acc (l1 ++ l2) = digitsValue (digitsValue acc l1) l2 := by
  simp [digitsValue, List.foldl_append]

theorem readDigits_append (l rest : List Char) (acc cnt : ℕ)
    (hl : ∀ c ∈ l, isDigit c = true) (hr : ∀ c ∈ rest.head?, isDigit c = false) :
    readDigits (l ++ rest) acc cnt = (digitsValue acc l, cnt + l.length, rest) := by
  induction l generalizing acc cnt with
  | nil =>
    cases rest with
    | nil => simp [readDigits, digitsValue]
    | cons c cs =>
      have : isDigit c = false := hr c (by simp)
      simp [readDigits, digitsValue, this]
  | cons d l ih =>
    have hd : isDigit d = true := hl d (by simp)
    have ih' := ih (10 * acc + digitVal d) (cnt + 1) (fun c hc => hl c (by simp [hc]))
    have h1 : cnt + 1 + l.length = cnt + (d :: l).length := by simp; omega
    show (if isDigit d = true then readDigits (l ++ rest) (10 * acc + digitVal d) (cnt + 1)
      else (acc, cnt, d :: (l ++ rest))) = _
    rw [if_pos hd, ih', h1]
    rfl

theorem isDigit_digitChar {d : ℕ} (h : d < 10) : isDigit (Nat.digitChar d) = true := by
  interval_cases d <;> decide

theorem digitVal_digitChar {d : ℕ} (h : d < 10) : digitVal (Nat.digitChar d) = d := by
  interval_cases d <;> decide

theorem digitChar_ne_zero {d : ℕ} (h : d < 10) (h0 : d ≠ 0) : Nat.digitChar d ≠ '0' := by
  interval_cases d <;> first | exact absurd rfl h0 | decide

theorem digitsValue_map_digitChar (l : List ℕ) (hl : ∀ d ∈ l, d < 10) (acc : ℕ) :
    digitsValue acc (l.map Nat.digitChar) = l.foldl (fun a d => 10 * a + d) acc := by
  induction l generalizing acc with
  | nil => rfl
  | cons d l ih =>
    have hd : d < 10 := hl d (by simp)
    simp only [List.map_cons, digitsValue, List.foldl_cons, digitVal_digitChar hd]
    exact ih (fun c hc => hl c (by simp [hc])) _

theorem foldl_reverse_digits (l : List ℕ) :
    l.reverse.foldl (fun a d => 10 * a + d) 0 = Nat.ofDigits 10 l := by
  induction l with
  | nil => rfl
  | cons d l ih =>
    simp only [List.reverse_cons, List.foldl_append, List.foldl_cons, List.foldl_nil, ih,
      Nat.ofDigits_cons]
    ring

theorem decimalDigits_isDigit (s : ℕ) : ∀ c ∈ decimalDigits s, isDigit c = true := by
  intro c hc
  unfold decimalDigits at hc
  split_ifs at hc with h
  · simp at hc; subst hc; decide
  · simp only [List.mem_map, List.mem_reverse] at hc
    obtain ⟨d, hd, rfl⟩ := hc
    exact isDigit_digitChar (Nat.digits_lt_base (by norm_num) hd)

theorem digitsValue_decimalDigits (s : ℕ) : digitsValue 0 (decimalDigits s) = s := by
  unfold decimalDigits
  split_ifs with h
  · subst h; decide
  · rw [digitsValue_map_digitChar _ (fun d hd => by
      rw [List.mem_reverse] at hd
      exact Nat.digits_lt_base (by norm_num) hd), foldl_reverse_digits, Nat.ofDigits_digits]

theorem decimalDigits_ne_nil (s : ℕ) : decimalDigits s ≠ [] := by
  unfold decimalDigits
  split_ifs with h
  · simp
  · simp [Nat.digits_ne_nil_iff_ne_zero, h]

theorem decimalDigits_head_ne_zero {s : ℕ} (hs : s ≠ 0) :
    ∀ c ∈ (decimalDigits s).head?, c ≠ '0' := by
  intro c hc
  unfold decimalDigits at hc
  rw [if_neg hs] at hc
  have hne : Nat.digits 10 s ≠ [] := Nat.digits_ne_nil_iff_ne_zero.mpr hs
  have hlast := Nat.getLast_digit_ne_zero 10 hs
  have hlt : (Nat.digits 10 s).getLast hne < 10 :=
    Nat.digits_lt_base (by norm_num) (List.getLast_mem hne)
  have hhead : ((Nat.digits 10 s).reverse.map Nat.digitChar).head? =
      some (Nat.digitChar ((Nat.digits 10 s).getLast hne)) := by
    rw [List.head?_map, List.head?_reverse, List.getLast?_eq_getLast _ hne]
    rfl
  rw [hhead] at hc
  simp only [Option.mem_def, Option.some.injEq] at hc
  subst hc
  exact digitChar_ne_zero hlt hlast

theorem digitsValue_replicate_zero (acc n : ℕ) :
    digitsValue acc (List.replicate n '0') = acc * 10 ^ n := by
  induction n generalizing acc with
  | zero => simp [digitsValue]
  | succ n ih =>
    simp only [List.replicate_succ, digitsValue, List.foldl_cons] at ih ⊢
    rw [ih]
    have : digitVal '0' = 0 := by decide
    rw [this]; ring

theorem EndsNumber.notDigit {rest : List Char} (h : EndsNumber rest) :
    ∀ c ∈ rest.head?, isDigit c = false := fun c hc => (h c hc).1

theorem readFraction_end {rest : List Char} (h : EndsNumber rest) (acc : ℕ) :
    readFraction rest acc = some (acc, 0, rest) := by
  cases rest with
  | nil => rfl
  | cons c cs =>
    have hc : c ≠ '.' := (h c (by simp)).2.1
    simp [readFraction, hc]

theorem readExponent_end {rest : List Char} (h : EndsNumber rest) :
    readExponent rest = some (0, rest) := by
  cases rest with
  | nil => rfl
  | cons c cs =>
    have hc := h c (by simp)
    simp [readExponent, hc.2.2.1, hc.2.2.2]

theorem readFraction_digits (l rest : List Char) (acc : ℕ) (hne : l ≠ [])
    (hl : ∀ c ∈ l, isDigit c = true) (hr : ∀ c ∈ rest.head?, isDigit c = false) :
    readFraction ('.' :: (l ++ rest)) acc = some (digitsValue acc l, l.length, rest) := by
  have hlen : l.length ≠ 0 := by
    intro h; exact hne (List.length_eq_zero.mp h)
  simp [readFraction, readDigits_append l rest acc 0 hl hr, hlen]

theorem readExponent_digits (neg : Bool) (m : ℕ) (rest : List Char)
    (hr : ∀ c ∈ rest.head?, isDigit c = false) :
    readExponent ('e' :: (if neg then '-' else '+') :: (decimalDigits m ++ rest)) =
      some (if neg then -(m : ℤ) else (m : ℤ), rest) := by
  have hd := readDigits_append (decimalDigits m) rest 0 0 (decimalDigits_isDigit m) hr
  have hlen : (decimalDigits m).length ≠ 0 := by
    intro h; exact decimalDigits_ne_nil m (List.length_eq_zero.mp h)
  cases neg with
  | true =>
    simp [readExponent, hd, hlen, digitsValue_decimalDigits]
  | false =>
    have h1 : ('+' : Char) ≠ '-' := by decide
    simp [readExponent, hd, hlen, digitsValue_decimalDigits, h1]

/-- A number that starts with a digit other than `0`. -/
theorem readUnsigned_digits (l rest rest1 rest2 : List Char) (m f : ℕ) (e : ℤ) (hne : l ≠ [])
    (hl : ∀ c ∈ l, isDigit c = true) (h0 : ∀ c ∈ l.head?, c ≠ '0')
    (hr : ∀ c ∈ rest.head?, isDigit c = false)
    (hf : readFraction rest (digitsValue 0 l) = some (m, f, rest1))
    (he : readExponent rest1 = some (e, rest2)) :
    readUnsigned (l ++ rest) = some ((m : ℚ) * (10 : ℚ) ^ (e - (f : ℤ)), rest2) := by
  cases l with
  | nil => exact absurd rfl hne
  | cons d tl =>
    have hd : isDigit d = true := hl d (by simp)
    have hd0 : d ≠ '0' := h0 d (by simp)
    have hrd := readDigits_append (d :: tl) rest 0 0 hl hr
    simp only [List.cons_append] at hrd
    simp only [List.cons_append, readUnsigned, hd, if_true, if_neg hd0, hrd, hf, he]

/-- A number that starts with the digit `0`. -/
theorem readUnsigned_zero (rest rest1 rest2 : List Char) (m f : ℕ) (e : ℤ)
    (hf : readFraction rest 0 = some (m, f, rest1))
    (he : readExponent rest1 = some (e, rest2)) :
    readUnsigned ('0' :: rest) = some ((m : ℚ) * (10 : ℚ) ^ (e - (f : ℤ)), rest2) := by
  have hd : isDigit '0' = true := by decide
  simp only [readUnsigned, hd, if_true, hf, he]

theorem isDigit_dot : isDigit '.' = false := by decide
theorem isDigit_e : isDigit 'e' = false := by decide

/-- Reading the layout of Number::toString gives the value of the digits. -/
theorem readUnsigned_layout (s : ℕ) (n : ℤ) (rest : List Char) (hs : s ≠ 0)
    (hr : EndsNumber rest) :
    readUnsigned (layout s n ++ rest) = some (decimalValue s n, rest) := by
  have hds := decimalDigits_isDigit s
  have hne := decimalDigits_ne_nil s
  have hh := decimalDigits_head_ne_zero hs
  have hv := digitsValue_decimalDigits s
  have hk : (0 : ℤ) < ((decimalDigits s).length : ℤ) := by
    have : 0 < (decimalDigits s).length := List.length_pos.mpr hne
    exact_mod_cast this
  unfold layout decimalValue
  simp only
  by_cases h1 : ((decimalDigits s).length : ℤ) ≤ n ∧ n ≤ 21
  · -- digits and zeros
    rw [if_pos h1]
    have hl : ∀ c ∈ decimalDigits s ++ List.replicate (n - (decimalDigits s).length).toNat '0',
        isDigit c = true := by
      intro c hc
      rcases List.mem_append.mp hc with hc | hc
      · exact hds c hc
      · rw [List.eq_of_mem_replicate hc]; decide
    have hhead : ∀ c ∈ (decimalDigits s ++
        List.replicate (n - (decimalDigits s).length).toNat '0').head?, c ≠ '0' := by
      intro c hc
      rw [List.head?_append_of_ne_nil _ hne] at hc
      exact hh c hc
    rw [readUnsigned_digits _ rest rest rest _ 0 0 (by simp [hne]) hl hhead hr.notDigit
      (readFraction_end hr _) (readExponent_end hr)]
    rw [digitsValue_append, hv, digitsValue_replicate_zero]
    congr 1
    push_cast
    have hz : ((n - (decimalDigits s).length).toNat : ℤ) = n - (decimalDigits s).length :=
      Int.toNat_of_nonneg (by omega)
    rw [← zpow_natCast, hz]
    simp
  rw [if_neg h1]
  by_cases h2 : 0 < n ∧ n ≤ 21
  · -- digits with a point inside
    rw [if_pos h2]
    have hn : n.toNat < (decimalDigits s).length := by omega
    have hn0 : 0 < n.toNat := by omega
    have htake_ne : (decimalDigits s).take n.toNat ≠ [] := by
      intro h
      have := congrArg List.length h
      simp only [List.length_take, List.length_nil] at this
      omega
    have hdrop_ne : (decimalDigits s).drop n.toNat ≠ [] := by
      intro h
      have := congrArg List.length h
      simp only [List.length_drop, List.length_nil] at this
      omega
    have htake : ∀ c ∈ (decimalDigits s).take n.toNat, isDigit c = true :=
      fun c hc => hds c (List.mem_of_mem_take hc)
    have hdrop : ∀ c ∈ (decimalDigits s).drop n.toNat, isDigit c = true :=
      fun c hc => hds c (List.mem_of_mem_drop hc)
    have hhead : ∀ c ∈ ((decimalDigits s).take n.toNat).head?, c ≠ '0' := by
      intro c hc
      apply hh c
      cases hd : decimalDigits s with
      | nil => exact absurd hd hne
      | cons a l =>
        rw [hd] at hc
        obtain ⟨m, hm⟩ : ∃ m, n.toNat = m + 1 := ⟨n.toNat - 1, by omega⟩
        rw [hm] at hc
        simpa using hc
    have hdot : ∀ c ∈ ('.' :: ((decimalDigits s).drop n.toNat ++ rest)).head?,
        isDigit c = false := by
      intro c hc
      simp only [List.head?_cons, Option.mem_def, Option.some.injEq] at hc
      subst hc; decide
    rw [List.append_assoc, List.cons_append]
    rw [readUnsigned_digits _ _ rest rest _ ((decimalDigits s).drop n.toNat).length 0 htake_ne
      htake hhead hdot
      (readFraction_digits _ rest _ hdrop_ne hdrop hr.notDigit) (readExponent_end hr)]
    rw [← digitsValue_append, List.take_append_drop, hv]
    congr 2
    simp only [List.length_drop]
    have : ((decimalDigits s).length - n.toNat : ℕ) = ((decimalDigits s).length : ℤ) - n := by
      rw [Nat.cast_sub hn.le, Int.toNat_of_nonneg (by omega)]
    rw [this]; ring_nf
  rw [if_neg h2]
  by_cases h3 : -6 < n ∧ n ≤ 0
  · -- a zero, a point, zeros and digits
    rw [if_pos h3]
    have hl : ∀ c ∈ List.replicate (-n).toNat '0' ++ decimalDigits s, isDigit c = true := by
      intro c hc
      rcases List.mem_append.mp hc with hc | hc
      · rw [List.eq_of_mem_replicate hc]; decide
      · exact hds c hc
    rw [List.cons_append, List.cons_append]
    rw [readUnsigned_zero _ rest rest _ (List.replicate (-n).toNat '0' ++ decimalDigits s).length 0
      (readFraction_digits _ rest 0 (by simp [hne]) hl hr.notDigit) (readExponent_end hr)]
    rw [digitsValue_append, digitsValue_replicate_zero, Nat.zero_mul, hv]
    congr 2
    simp only [List.length_append, List.length_replicate]
    push_cast
    rw [Int.toNat_of_nonneg (by omega)]
    ring_nf
  · -- exponent
    rw [if_neg h3]
    have habs : (if n - 1 < 0 then -(((n - 1).natAbs : ℕ) : ℤ) else (((n - 1).natAbs : ℕ) : ℤ)) =
        n - 1 := by
      split_ifs <;> omega
    cases hd : decimalDigits s with
    | nil => exact absurd hd hne
    | cons d tl =>
      rw [hd] at hds hh hv
      have hdd : isDigit d = true := hds d (by simp)
      have hd0 : ∀ c ∈ [d].head?, c ≠ '0' := by
        intro c hc; exact hh c (by simpa using hc)
      have hsign : (if n - 1 < 0 then '-' else '+') =
          (if decide (n - 1 < 0) then '-' else '+') := by simp
      cases tl with
      | nil =>
        simp only []
        have he := readExponent_digits (decide (n - 1 < 0)) (n - 1).natAbs rest hr.notDigit
        have hfr : readFraction ('e' :: (if decide (n - 1 < 0) then '-' else '+') ::
            (decimalDigits (n - 1).natAbs ++ rest)) (digitsValue 0 [d]) =
            some (digitsValue 0 [d], 0, 'e' :: (if decide (n - 1 < 0) then '-' else '+') ::
            (decimalDigits (n - 1).natAbs ++ rest)) := by
          have : ('e' : Char) ≠ '.' := by decide
          simp [readFraction, this]
        have hnd : ∀ c ∈ ('e' :: (if decide (n - 1 < 0) then '-' else '+') ::
            (decimalDigits (n - 1).natAbs ++ rest)).head?, isDigit c = false := by
          intro c hc
          simp only [List.head?_cons, Option.mem_def, Option.some.injEq] at hc
          subst hc; decide
        have := readUnsigned_digits [d] _ _ rest _ 0 _ (by simp) (fun c hc => by
          simp at hc; subst hc; exact hdd) hd0 hnd hfr he
        simp only [List.cons_append, List.nil_append, hsign] at this ⊢
        rw [this, hv]
        congr 2
        simp only [decide_eq_true_eq, List.length_singleton]
        rw [habs]; simp
      | cons d2 tl2 =>
        simp only []
        have he := readExponent_digits (decide (n - 1 < 0)) (n - 1).natAbs rest hr.notDigit
        have htl : ∀ c ∈ d2 :: tl2, isDigit c = true := fun c hc => hds c (by simp [hc])
        have hnd : ∀ c ∈ ('e' :: (if decide (n - 1 < 0) then '-' else '+') ::
            (decimalDigits (n - 1).natAbs ++ rest)).head?, isDigit c = false := by
          intro c hc
          simp only [List.head?_cons, Option.mem_def, Option.some.injEq] at hc
          subst hc; decide
        have hfr := readFraction_digits (d2 :: tl2) _ (digitsValue 0 [d]) (by simp) htl hnd
        have hdot : ∀ c ∈ ('.' :: ((d2 :: tl2) ++ 'e' ::
            (if decide (n - 1 < 0) then '-' else '+') ::
            (decimalDigits (n - 1).natAbs ++ rest))).head?, isDigit c = false := by
          intro c hc
          simp only [List.head?_cons, Option.mem_def, Option.some.injEq] at hc
          subst hc; decide
        have := readUnsigned_digits [d] _ _ rest _ (d2 :: tl2).length _ (by simp) (fun c hc => by
          simp at hc; subst hc; exact hdd) hd0 hdot hfr he
        simp only [List.cons_append, List.nil_append, List.append_assoc, hsign] at this ⊢
        rw [this, ← digitsValue_append]
        simp only [List.singleton_append, hv]
        congr 2
        simp only [decide_eq_true_eq, List.length_cons]
        rw [habs]; push_cast; ring_nf

/-! ### The digits of Number::toString are read back as the number -/

theorem candidate_spec {q : ℚ} {n0 : ℤ} {k : ℕ} {r : ℕ × ℤ} (h : candidate q n0 k = some r) :
    roundDouble (decimalValue r.1 r.2) = .fin q := by
  unfold candidate at h
  simp only at h
  split_ifs at h <;>
    first
    | (cases h; done)
    | (simp only [Option.some.injEq] at h
       subst h
       simp only [Bool.and_eq_true, decide_eq_true_eq] at *
       tauto)

theorem searchDigits_spec {q : ℚ} {n0 : ℤ} {fuel k : ℕ} {r : ℕ × ℤ}
    (h : searchDigits q n0 fuel k = some r) :
    roundDouble (decimalValue r.1 r.2) = .fin q := by
  induction fuel generalizing k with
  | zero => cases h
  | succ fuel ih =>
    unfold searchDigits at h
    cases hc : candidate q n0 k with
    | some r' =>
      rw [hc] at h
      simp only [Option.some.injEq] at h
      subst h
      exact candidate_spec hc
    | none =>
      rw [hc] at h
      exact ih h

/-- A positive binary64 number is a natural number of units `10^-1074`. -/
theorem exact_decimal_of_isDouble {q : ℚ} (hd : IsDouble q) (hq : 0 < q) :
    ((⌊q * 10 ^ 1074⌋₊ : ℕ) : ℚ) = q * 10 ^ 1074 := by
  have hb : (-1022 : ℤ) ≤ binade q := le_max_right _ _
  unfold IsDouble roundDouble at hd
  simp only [abs_of_pos hq] at hd
  split_ifs at hd with hbig hneg
  · exact absurd hneg (not_lt.mpr hq.le)
  · simp only [JsNum.fin.injEq] at hd
    have hm0 : 0 ≤ roundHalfEven (q / 2 ^ (binade q - 52)) :=
      roundHalfEven_nonneg (div_nonneg hq.le (binade_zpow_pos q).le)
    obtain ⟨m, hm⟩ := Int.eq_ofNat_of_zero_le hm0
    obtain ⟨j, hj⟩ := Int.eq_ofNat_of_zero_le (by omega : 0 ≤ binade q + 1022)
    have hpow : (2 : ℚ) ^ (binade q - 52) * 2 ^ 1074 = 2 ^ j := by
      rw [← zpow_natCast (2 : ℚ) 1074, ← zpow_add₀ (by norm_num : (2 : ℚ) ≠ 0),
        ← zpow_natCast (2 : ℚ) j, ← hj]
      congr 1
      push_cast
      ring
    have hval : q * 10 ^ 1074 = ((m * 2 ^ j * 5 ^ 1074 : ℕ) : ℚ) := by
      rw [← hd, hm]
      have h10 : (10 : ℚ) ^ 1074 = 2 ^ 1074 * 5 ^ 1074 := by
        rw [← mul_pow]; congr 1; norm_num
      rw [h10]
      push_cast
      calc ((m : ℤ) : ℚ) * 2 ^ (binade q - 52) * (2 ^ 1074 * 5 ^ 1074)
          = (m : ℚ) * (2 ^ (binade q - 52) * 2 ^ 1074) * 5 ^ 1074 := by push_cast; ring
        _ = (m : ℚ) * 2 ^ j * 5 ^ 1074 := by rw [hpow]
    rw [hval, Nat.floor_natCast]

theorem shortestDigits_spec {q : ℚ} (hd : IsDouble q) (hq : 0 < q) :
    roundDouble (decimalValue (shortestDigits q).1 (shortestDigits q).2) = .fin q := by
  unfold shortestDigits
  cases hs : searchDigits q (Int.log 10 q + 1) 17 1 with
  | some r => exact searchDigits_spec hs
  | none =>
    simp only
    have hx := exact_decimal_of_isDouble hd hq
    have hv : decimalValue ⌊q * 10 ^ 1074⌋₊
        (((decimalDigits ⌊q * 10 ^ 1074⌋₊).length : ℤ) - 1074) = q := by
      unfold decimalValue
      rw [hx]
      have : ((decimalDigits ⌊q * 10 ^ 1074⌋₊).length : ℤ) - 1074 -
          ((decimalDigits ⌊q * 10 ^ 1074⌋₊).length : ℤ) = -((1074 : ℕ) : ℤ) := by
        push_cast; ring
      rw [this, zpow_neg, zpow_natCast, mul_assoc, mul_inv_cancel₀ (by positivity), mul_one]
    rw [hv]
    exact hd

theorem decimalValue_zero (n : ℤ) : decimalValue 0 n = 0 := by
  simp [decimalValue]

theorem shortestDigits_ne_zero {q : ℚ} (hd : IsDouble q) (hq : 0 < q) :
    (shortestDigits q).1 ≠ 0 := by
  intro h
  have := shortestDigits_spec hd hq
  rw [h, decimalValue_zero, roundDouble_zero] at this
  simp only [JsNum.fin.injEq] at this
  exact hq.ne this

theorem roundDouble_neg (x : ℚ) : roundDouble (-x) = negNum (roundDouble x) := by
  rcases lt_trichotomy x 0 with h | h | h
  · have h1 : ¬ (-x < 0) := by linarith
    unfold roundDouble
    simp only [abs_neg, h, h1, if_true, if_false, decide_True, decide_False]
    split_ifs <;> simp [negNum]
  · subst h; simp [roundDouble_zero, negNum]
  · have h1 : -x < 0 := by linarith
    have h2 : ¬ (x < 0) := by linarith
    unfold roundDouble
    simp only [abs_neg, h1, h2, if_true, if_false, decide_True, decide_False]
    split_ifs <;> simp [negNum]

theorem isDouble_neg {q : ℚ} (hd : IsDouble q) : IsDouble (-q) := by
  unfold IsDouble at *
  rw [roundDouble_neg, hd]
  rfl

/-- The text of Number::toString is read back as the number. -/
theorem readNumber_numberChars {q : ℚ} (hd : IsDouble q) (rest : List Char)
    (hr : EndsNumber rest) :
    readNumber (numberChars q ++ rest) = some (.fin q, rest) := by
  unfold numberChars
  rcases lt_trichotomy q 0 with h | h | h
  · have hq : 0 < -q := by linarith
    rw [if_neg h.ne, if_pos h]
    simp only [List.cons_append, readNumber, if_true]
    rw [readUnsigned_layout _ _ rest (shortestDigits_ne_zero (isDouble_neg hd) hq) hr]
    simp only [Option.map_some']
    rw [roundDouble_neg, shortestDigits_spec (isDouble_neg hd) hq]
    simp [negNum]
  · subst h
    rw [if_pos rfl]
    have h0 : ('0' : Char) ≠ '-' := by decide
    simp only [List.cons_append, List.nil_append, readNumber, if_neg h0]
    rw [readUnsigned_zero rest rest rest 0 0 0 (readFraction_end hr 0) (readExponent_end hr)]
    simp [roundDouble_zero]
  · rw [if_neg h.ne', if_neg (not_lt.mpr h.le)]
    have hs := shortestDigits_ne_zero hd h
    have hhead := decimalDigits_head_ne_zero hs
    have hread := readUnsigned_layout (shortestDigits q).1 (shortestDigits q).2 rest hs hr
    cases hl : layout (shortestDigits q).1 (shortestDigits q).2 ++ rest with
    | nil =>
      rw [hl] at hread
      simp [readUnsigned] at hread
    | cons c cs =>
      rw [hl] at hread
      have hc : c ≠ '-' := by
        intro hc
        subst hc
        have : isDigit '-' = false := by decide
        simp [readUnsigned, this] at hread
      simp only [readNumber, if_neg hc, hread, Option.map_some']
      rw [shortestDigits_spec hd h]

/-! ### A quoted string is read back -/

theorem hex4_control {n : ℕ} (h : n < 32) :
    hex4 '0' '0' (Nat.digitChar (n / 16)) (Nat.digitChar (n % 16)) = some n := by
  interval_cases n <;> decide

theorem bslash_ne_dquote : bslash ≠ dquote := by decide

theorem readUnicode_control {n : ℕ} (h : n < 32) (tail : List Char) :
    readUnicode ('0' :: '0' :: Nat.digitChar (n / 16) :: Nat.digitChar (n % 16) :: tail) =
      some (Char.ofNat n, tail) := by
  simp only [readUnicode, hex4_control h]
  rw [if_neg (by omega), if_neg (by omega)]

/-- The text of a character starts with a character other than the quotation
mark and is read back as the character. -/
theorem readChar_quoteChar (c : Char) (tail : List Char) :
    ∃ x xs, quoteChar c = x :: xs ∧ x ≠ dquote ∧ readChar x (xs ++ tail) = some (c, tail) := by
  unfold quoteChar
  by_cases h1 : c = dquote
  · subst h1
    rw [if_pos rfl]
    exact ⟨bslash, [dquote], rfl, bslash_ne_dquote, by simp [readChar, readEscape]⟩
  rw [if_neg h1]
  by_cases h2 : c = bslash
  · subst h2
    rw [if_pos rfl]
    exact ⟨bslash, [bslash], rfl, bslash_ne_dquote,
      by simp [readChar, readEscape, bslash_ne_dquote]⟩
  rw [if_neg h2]
  have hc : Char.ofNat c.toNat = c := Char.ofNat_toNat c
  by_cases h8 : c.toNat = 8
  · rw [if_pos h8]
    refine ⟨bslash, ['b'], rfl, bslash_ne_dquote, ?_⟩
    rw [← hc, h8]
    simp only [readChar, readEscape, if_true, List.cons_append, List.nil_append,
      if_neg (by decide : ('b' : Char) ≠ dquote), if_neg (by decide : ('b' : Char) ≠ bslash),
      if_neg (by decide : ('b' : Char) ≠ '/')]
  rw [if_neg h8]
  by_cases h9 : c.toNat = 9
  · rw [if_pos h9]
    refine ⟨bslash, ['t'], rfl, bslash_ne_dquote, ?_⟩
    rw [← hc, h9]
    simp only [readChar, readEscape, if_true, List.cons_append, List.nil_append,
      if_neg (by decide : ('t' : Char) ≠ dquote), if_neg (by decide : ('t' : Char) ≠ bslash),
      if_neg (by decide : ('t' : Char) ≠ '/'), if_neg (by decide : ('t' : Char) ≠ 'b'),
      if_neg (by decide : ('t' : Char) ≠ 'f'), if_neg (by decide : ('t' : Char) ≠ 'n'),
      if_neg (by decide : ('t' : Char) ≠ 'r')]
  rw [if_neg h9]
  by_cases h10 : c.toNat = 10
  · rw [if_pos h10]
    refine ⟨bslash, ['n'], rfl, bslash_ne_dquote, ?_⟩
    rw [← hc, h10]
    simp only [readChar, readEscape, if_true, List.cons_append, List.nil_append,
      if_neg (by decide : ('n' : Char) ≠ dquote), if_neg (by decide : ('n' : Char) ≠ bslash),
      if_neg (by decide : ('n' : Char) ≠ '/'), if_neg (by decide : ('n' : Char) ≠ 'b'),
      if_neg (by decide : ('n' : Char) ≠ 'f')]
  rw [if_neg h10]
  by_cases h12 : c.toNat = 12
  · rw [if_pos h12]
    refine ⟨bslash, ['f'], rfl, bslash_ne_dquote, ?_⟩
    rw [← hc, h12]
    simp only [readChar, readEscape, if_true, List.cons_append, List.nil_append,
      if_neg (by decide : ('f' : Char) ≠ dquote), if_neg (by decide : ('f' : Char) ≠ bslash),
      if_neg (by decide : ('f' : Char) ≠ '/'), if_neg (by decide : ('f' : Char) ≠ 'b')]
  rw [if_neg h12]
  by_cases h13 : c.toNat = 13
  · rw [if_pos h13]
    refine ⟨bslash, ['r'], rfl, bslash_ne_dquote, ?_⟩
    rw [← hc, h13]
    simp only [readChar, readEscape, if_true, List.cons_append, List.nil_append,
      if_neg (by decide : ('r' : Char) ≠ dquote), if_neg (by decide : ('r' : Char) ≠ bslash),
      if_neg (by decide : ('r' : Char) ≠ '/'), if_neg (by decide : ('r' : Char) ≠ 'b'),
      if_neg (by decide : ('r' : Char) ≠ 'f'), if_neg (by decide : ('r' : Char) ≠ 'n')]
  rw [if_neg h13]
  by_cases h32 : c.toNat < 32
  · rw [if_pos h32]
    refine ⟨bslash, _, rfl, bslash_ne_dquote, ?_⟩
    simp only [readChar, readEscape, if_true, List.cons_append, List.nil_append,
      if_neg (by decide : ('u' : Char) ≠ dquote), if_neg (by decide : ('u' : Char) ≠ bslash),
      if_neg (by decide : ('u' : Char) ≠ '/'), if_neg (by decide : ('u' : Char) ≠ 'b'),
      if_neg (by decide : ('u' : Char) ≠ 'f'), if_neg (by decide : ('u' : Char) ≠ 'n'),
      if_neg (by decide : ('u' : Char) ≠ 'r'), if_neg (by decide : ('u' : Char) ≠ 't')]
    rw [readUnicode_control h32, hc]
  · rw [if_neg h32]
    exact ⟨c, [], rfl, h1, by simp [readChar, h2, h32]⟩

theorem readStringAux_flatMap (l rest acc : List Char) (fuel : ℕ) (hf : l.length + 1 ≤ fuel) :
    readStringAux fuel (l.flatMap quoteChar ++ dquote :: rest) acc =
      some (String.mk (acc.reverse ++ l), rest) := by
  induction l generalizing acc fuel with
  | nil =>
    obtain ⟨f, rfl⟩ : ∃ f, fuel = f + 1 := ⟨fuel - 1, by simp at hf; omega⟩
    simp [readStringAux]
  | cons c l ih =>
    obtain ⟨f, rfl⟩ : ∃ f, fuel = f + 1 := ⟨fuel - 1, by simp at hf; omega⟩
    obtain ⟨x, xs, hq, hx, hread⟩ := readChar_quoteChar c (l.flatMap quoteChar ++ dquote :: rest)
    have hshape : (c :: l).flatMap quoteChar ++ dquote :: rest =
        x :: (xs ++ (l.flatMap quoteChar ++ dquote :: rest)) := by
      rw [List.flatMap_cons, hq]; simp
    rw [hshape]
    simp only [readStringAux, if_neg hx, hread]
    rw [ih (c :: acc) f (by simp at hf; omega)]
    simp

theorem quoteChar_length (c : Char) : 1 ≤ (quoteChar c).length := by
  obtain ⟨x, xs, hq, -, -⟩ := readChar_quoteChar c []
  rw [hq]; simp

theorem length_le_flatMap (l : List Char) : l.length ≤ (l.flatMap quoteChar).length := by
  induction l with
  | nil => simp
  | cons c l ih =>
    rw [List.flatMap_cons, List.length_append, List.length_cons]
    have := quoteChar_length c
    omega

/-- A quoted string is read back, after its opening quotation mark. -/
theorem readString_quote (s : String) (rest : List Char) :
    readString (s.data.flatMap quoteChar ++ dquote :: rest) = some (s, rest) := by
  unfold readString
  rw [readStringAux_flatMap]
  · simp
  · have := length_le_flatMap s.data
    simp only [List.length_append, List.length_cons]
    omega

/-! ### White space and the first character of a value -/

theorem skipWs_append (ws t : List Char) (h : ∀ c ∈ ws, isWs c = true) :
    skipWs (ws ++ t) = skipWs t := by
  induction ws with
  | nil => rfl
  | cons c ws ih =>
    have hc : isWs c = true := h c (by simp)
    simp only [List.cons_append, skipWs, hc, if_true]
    exact ih (fun d hd => h d (by simp [hd]))

theorem skipWs_cons {c : Char} (cs : List Char) (h : isWs c = false) :
    skipWs (c :: cs) = c :: cs := by
  simp [skipWs, h]

theorem Spaces.append_two {ind : List Char} (h : Spaces ind) : Spaces (ind ++ [' ', ' ']) := by
  intro c hc
  rcases List.mem_append.mp hc with hc | hc
  · exact h c hc
  · simp at hc; exact hc

theorem Spaces.isWs {ind : List Char} (h : Spaces ind) : ∀ c ∈ ind, isWs c = true := by
  intro c hc
  rw [h c hc]; decide

theorem Spaces.newline {ind : List Char} (h : Spaces ind) :
    ∀ c ∈ '\n' :: ind, Json.isWs c = true := by
  intro c hc
  rcases List.mem_cons.mp hc with hc | hc
  · rw [hc]; decide
  · exact h.isWs c hc

/-- The first character of a number: a minus sign or a digit. -/
theorem numberChars_head {q : ℚ} (hd : IsDouble q) :
    ∃ c cs, numberChars q = c :: cs ∧ (c = '-' ∨ isDigit c = true) := by
  unfold numberChars
  rcases lt_trichotomy q 0 with h | h | h
  · rw [if_neg h.ne, if_pos h]
    exact ⟨'-', _, rfl, Or.inl rfl⟩
  · subst h
    rw [if_pos rfl]
    exact ⟨'0', [], rfl, Or.inr (by decide)⟩
  · rw [if_neg h.ne', if_neg (not_lt.mpr h.le)]
    have hs := shortestDigits_ne_zero hd h
    have hread := readUnsigned_layout (shortestDigits q).1 (shortestDigits q).2 [] hs
      (by intro c hc; simp at hc)
    rw [List.append_nil] at hread
    cases hl : layout (shortestDigits q).1 (shortestDigits q).2 with
    | nil => rw [hl] at hread; simp [readUnsigned] at hread
    | cons c cs =>
      refine ⟨c, cs, rfl, Or.inr ?_⟩
      rw [hl] at hread
      by_contra hc
      simp [readUnsigned, hc] at hread

theorem layout_ne_nil (s : ℕ) (n : ℤ) : layout s n ≠ [] := by
  have hne := decimalDigits_ne_nil s
  unfold layout
  simp only
  by_cases h1 : ((decimalDigits s).length : ℤ) ≤ n ∧ n ≤ 21
  · rw [if_pos h1]; simp [hne]
  rw [if_neg h1]
  by_cases h2 : 0 < n ∧ n ≤ 21
  · rw [if_pos h2]; simp
  rw [if_neg h2]
  by_cases h3 : -6 < n ∧ n ≤ 0
  · rw [if_pos h3]; simp
  rw [if_neg h3]
  cases hd : decimalDigits s with
  | nil => exact absurd hd hne
  | cons d tl => cases tl <;> simp

theorem numberChars_length (q : ℚ) : 1 ≤ (numberChars q).length := by
  unfold numberChars
  split_ifs
  · simp
  · simp
  · exact List.length_pos.mpr (layout_ne_nil _ _)

theorem writeElements_eq (ind : List Char) {xs : List JsVal} (h : xs ≠ []) :
    writeElements ind xs = ',' :: ('\n' :: ind ++ writeItems ind xs) := by
  cases xs with
  | nil => exact absurd rfl h
  | cons x xs => simp [writeElements, writeItems]

theorem writeMembers_eq (ind : List Char) {kvs : List (String × JsVal)} (h : kvs ≠ []) :
    writeMembers ind kvs = ',' :: ('\n' :: ind ++ writeFields ind kvs) := by
  cases kvs with
  | nil => exact absurd rfl h
  | cons kv kvs =>
    obtain ⟨k, v⟩ := kv
    simp [writeMembers, writeFields]

theorem number_head_facts {c : Char} (h : c = '-' ∨ isDigit c = true) :
    isWs c = false ∧ c ≠ dquote ∧ c ≠ '[' ∧ c ≠ lbrace ∧ c ≠ 'n' ∧ c ≠ 't' ∧ c ≠ 'f' ∧
      c ≠ ']' := by
  rcases h with rfl | h
  · decide
  · refine ⟨?_, ?_, ?_, ?_, ?_, ?_, ?_, ?_⟩
    · cases hw : isWs c
      · rfl
      · simp only [isWs, decide_eq_true_eq] at hw
        rcases hw with rfl | rfl | rfl | rfl <;> revert h <;> decide
    all_goals (rintro rfl; revert h; decide)

theorem write_arr_eq (ind : List Char) {xs : List JsVal} (h : xs ≠ []) :
    write ind (.arr xs) = '[' :: ('\n' :: ind ++ ' ' :: ' ' ::
      (writeItems (ind ++ [' ', ' ']) xs ++ '\n' :: (ind ++ [']']))) := by
  cases xs with
  | nil => exact absurd rfl h
  | cons x xs => simp [write, writeItems]

theorem write_obj_eq (ind : List Char) {kvs : List (String × JsVal)} (h : kvs ≠ []) :
    write ind (.obj kvs) = lbrace :: ('\n' :: ind ++ ' ' :: ' ' ::
      (writeFields (ind ++ [' ', ' ']) kvs ++ '\n' :: (ind ++ [rbrace]))) := by
  cases kvs with
  | nil => exact absurd rfl h
  | cons kv kvs =>
    obtain ⟨k, v⟩ := kv
    simp [write, writeFields]

/-- The text of a value starts with a character that is neither white space nor a
closing bracket. -/
theorem write_head (ind : List Char) (v : JsVal) (hv : Representable v) :
    ∃ d w, write ind v = d :: w ∧ isWs d = false ∧ d ≠ ']' := by
  cases v with
  | null => exact ⟨'n', _, rfl, by decide, by decide⟩
  | bool b => cases b
              · exact ⟨'f', _, rfl, by decide, by decide⟩
              · exact ⟨'t', _, rfl, by decide, by decide⟩
  | num x =>
    simp only [Representable] at hv
    obtain ⟨q, rfl, hq⟩ := hv
    obtain ⟨c, cs, hc, hcc⟩ := numberChars_head hq
    have hf := number_head_facts hcc
    exact ⟨c, cs, by simp [write, hc], hf.1, hf.2.2.2.2.2.2.2⟩
  | str s => exact ⟨dquote, _, rfl, by decide, by decide⟩
  | arr xs =>
    cases xs with
    | nil => exact ⟨'[', _, rfl, by decide, by decide⟩
    | cons x xs => exact ⟨'[', _, by rw [write], by decide, by decide⟩
  | obj kvs =>
    cases kvs with
    | nil => exact ⟨lbrace, _, rfl, by decide, by decide⟩
    | cons kv kvs =>
      obtain ⟨k, v⟩ := kv
      exact ⟨lbrace, _, by rw [write], by decide, by decide⟩

theorem size_pos (v : JsVal) : 1 ≤ size v := by
  cases v <;> simp [size]

theorem endsNumber_nil : EndsNumber [] := by
  intro c hc; simp at hc

theorem endsNumber_cons {c : Char} (cs : List Char)
    (h : isDigit c = false ∧ c ≠ '.' ∧ c ≠ 'e' ∧ c ≠ 'E') : EndsNumber (c :: cs) := by
  intro d hd
  simp at hd
  subst hd
  exact h

theorem endsNumber_elements (ind : List Char) (xs : List JsVal) (tl : List Char) :
    EndsNumber (writeElements ind xs ++ '\n' :: tl) := by
  cases xs with
  | nil => exact endsNumber_cons _ (by decide)
  | cons x xs => simp only [writeElements, List.cons_append]
                 exact endsNumber_cons _ (by decide)

theorem endsNumber_members (ind : List Char) (kvs : List (String × JsVal)) (tl : List Char) :
    EndsNumber (writeMembers ind kvs ++ '\n' :: tl) := by
  cases kvs with
  | nil => exact endsNumber_cons _ (by decide)
  | cons kv kvs =>
    obtain ⟨k, v⟩ := kv
    simp only [writeMembers, List.cons_append]
    exact endsNumber_cons _ (by decide)

theorem readValue_scalar (f : ℕ) (ws : List Char) (c : Char) (cs : List Char)
    (hw : ∀ c ∈ ws, isWs c = true) :
    readValue (f + 1) (ws ++ c :: cs) = readValue (f + 1) (c :: cs) := by
  rw [readValue, readValue, skipWs_append _ _ hw]

mutual
theorem readValue_write : ∀ (v : JsVal) (ind ws rest : List Char) (fuel : ℕ),
    Representable v → Spaces ind → (∀ c ∈ ws, isWs c = true) → EndsNumber rest →
    size v ≤ fuel → readValue fuel (ws ++ (write ind v ++ rest)) = some (v, rest)
  | .null, ind, ws, rest, fuel, _, _, hw, _, hf => by
    obtain ⟨f, rfl⟩ : ∃ f, fuel = f + 1 := ⟨fuel - 1, by simp only [size] at hf; omega⟩
    show readValue (f + 1) (ws ++ 'n' :: 'u' :: 'l' :: 'l' :: rest) = _
    rw [readValue_scalar f ws _ _ hw, readValue, skipWs_cons _ (by decide)]
    dsimp only
    rw [if_neg (by decide), if_neg (by decide), if_neg (by decide), if_pos rfl]
    rfl
  | .bool true, ind, ws, rest, fuel, _, _, hw, _, hf => by
    obtain ⟨f, rfl⟩ : ∃ f, fuel = f + 1 := ⟨fuel - 1, by simp only [size] at hf; omega⟩
    show readValue (f + 1) (ws ++ 't' :: 'r' :: 'u' :: 'e' :: rest) = _
    rw [readValue_scalar f ws _ _ hw, readValue, skipWs_cons _ (by decide)]
    dsimp only
    rw [if_neg (by decide), if_neg (by decide), if_neg (by decide), if_neg (by decide),
      if_pos rfl]
    rfl
  | .bool false, ind, ws, rest, fuel, _, _, hw, _, hf => by
    obtain ⟨f, rfl⟩ : ∃ f, fuel = f + 1 := ⟨fuel - 1, by simp only [size] at hf; omega⟩
    show readValue (f + 1) (ws ++ 'f' :: 'a' :: 'l' :: 's' :: 'e' :: rest) = _
    rw [readValue_scalar f ws _ _ hw, readValue, skipWs_cons _ (by decide)]
    dsimp only
    rw [if_neg (by decide), if_neg (by decide), if_neg (by decide), if_neg (by decide),
      if_neg (by decide), if_pos rfl]
    rfl
  | .num x, ind, ws, rest, fuel, hv, _, hw, hr, hf => by
    obtain ⟨f, rfl⟩ : ∃ f, fuel = f + 1 := ⟨fuel - 1, by simp only [size] at hf; omega⟩
    simp only [Representable] at hv
    obtain ⟨q, rfl, hq⟩ := hv
    obtain ⟨c, cs, hc, hcc⟩ := numberChars_head hq
    obtain ⟨h1, h2, h3, h4, h5, h6, h7, -⟩ := number_head_facts hcc
    have hnum := readNumber_numberChars hq rest hr
    show readValue (f + 1) (ws ++ (numberChars q ++ rest)) = _
    rw [hc] at hnum ⊢
    rw [List.cons_append] at hnum ⊢
    rw [readValue_scalar f ws _ _ hw, readValue, skipWs_cons _ h1]
    dsimp only
    rw [if_neg h2, if_neg h3, if_neg h4, if_neg h5, if_neg h6, if_neg h7, hnum]
    rfl
  | .str s, ind, ws, rest, fuel, _, _, hw, _, hf => by
    obtain ⟨f, rfl⟩ : ∃ f, fuel = f + 1 := ⟨fuel - 1, by simp only [size] at hf; omega⟩
    show readValue (f + 1) (ws ++ (quote s ++ rest)) = _
    have hq : quote s ++ rest = dquote :: (s.data.flatMap quoteChar ++ dquote :: rest) := by
      simp [quote]
    rw [hq, readValue_scalar f ws _ _ hw, readValue, skipWs_cons _ (by decide)]
    dsimp only
    rw [if_pos rfl, readString_quote]
    rfl
  | .arr xs, ind, ws, rest, fuel, hv, hi, hw, _, hf => by
    obtain ⟨f, rfl⟩ : ∃ f, fuel = f + 1 := ⟨fuel - 1, by simp only [size] at hf; omega⟩
    by_cases hxs : xs = []
    · subst hxs
      show readValue (f + 1) (ws ++ '[' :: ']' :: rest) = _
      rw [readValue_scalar f ws _ _ hw, readValue, skipWs_cons _ (by decide)]
      dsimp only
      rw [if_neg (by decide), if_pos rfl, skipWs_cons _ (by decide)]
      dsimp only
      rw [if_pos rfl]
    · have hrep : RepresentableList xs := by simpa only [Representable] using hv
      have hsz : sizeList xs ≤ f := by simp only [size] at hf; omega
      have ih := readElements_write xs (ind ++ [' ', ' ']) ind [] rest [] f hxs hrep
        hi.append_two hi (by intro c hc; simp at hc) hsz
      obtain ⟨x, xs', rfl⟩ := List.exists_cons_of_ne_nil hxs
      have hx : Representable x := by
        simp only [RepresentableList] at hrep; exact hrep.1
      obtain ⟨d, w, hd, hdw, hdb⟩ := write_head (ind ++ [' ', ' ']) x hx
      rw [write_arr_eq ind hxs]
      simp only [writeItems, hd, List.nil_append, List.cons_append, List.append_assoc] at ih ⊢
      rw [readValue_scalar f ws _ _ hw, readValue, skipWs_cons _ (by decide)]
      dsimp only
      rw [if_neg (by decide), if_pos rfl]
      have hskip : skipWs ('\n' :: (ind ++ ' ' :: ' ' :: d :: (w ++ (writeElements (ind ++ [' ', ' ']) xs' ++
          '\n' :: (ind ++ ']' :: rest))))) =
          d :: (w ++ (writeElements (ind ++ [' ', ' ']) xs' ++ '\n' :: (ind ++ ']' :: rest))) := by
        have := skipWs_append ('\n' :: (ind ++ [' ', ' ']))
          (d :: (w ++ (writeElements (ind ++ [' ', ' ']) xs' ++ '\n' :: (ind ++ ']' :: rest))))
          hi.append_two.newline
        simp only [List.cons_append, List.append_assoc, List.nil_append] at this
        rw [this, skipWs_cons _ hdw]
      rw [hskip]
      dsimp only
      rw [if_neg hdb, ih]
      rfl
  | .obj kvs, ind, ws, rest, fuel, hv, hi, hw, _, hf => by
    obtain ⟨f, rfl⟩ : ∃ f, fuel = f + 1 := ⟨fuel - 1, by simp only [size] at hf; omega⟩
    by_cases hxs : kvs = []
    · subst hxs
      show readValue (f + 1) (ws ++ lbrace :: rbrace :: rest) = _
      rw [readValue_scalar f ws _ _ hw, readValue, skipWs_cons _ (by decide)]
      dsimp only
      rw [if_neg (by decide), if_neg (by decide), if_pos rfl, skipWs_cons _ (by decide)]
      dsimp only
      rw [if_pos rfl]
    · have hrep : fromEntries kvs = kvs ∧ RepresentableMembers kvs := by
        simpa only [Representable] using hv
      have hsz : sizeMembers kvs ≤ f := by simp only [size] at hf; omega
      have ih := readMembers_write kvs (ind ++ [' ', ' ']) ind [] rest [] f hxs hrep.2
        hi.append_two hi (by intro c hc; simp at hc) hsz
      have hfe : addEntries [] kvs = kvs := hrep.1
      rw [hfe] at ih
      obtain ⟨⟨k, v⟩, kvs', rfl⟩ := List.exists_cons_of_ne_nil hxs
      rw [write_obj_eq ind hxs]
      simp only [writeFields, quote, List.nil_append, List.cons_append, List.append_assoc] at ih ⊢
      rw [readValue_scalar f ws _ _ hw, readValue, skipWs_cons _ (by decide)]
      dsimp only
      rw [if_neg (by decide), if_neg (by decide), if_pos rfl]
      have hskip : ∀ t, skipWs ('\n' :: (ind ++ ' ' :: ' ' :: dquote :: t)) = dquote :: t := by
        intro t
        have := skipWs_append ('\n' :: (ind ++ [' ', ' '])) (dquote :: t) hi.append_two.newline
        simp only [List.cons_append, List.append_assoc, List.nil_append] at this
        rw [this, skipWs_cons _ (by decide)]
      rw [hskip]
      dsimp only
      rw [if_neg (by decide), ih]
theorem readElements_write : ∀ (l : List JsVal) (ind ind0 ws rest : List Char)
    (acc : List JsVal) (fuel : ℕ), l ≠ [] → RepresentableList l → Spaces ind → Spaces ind0 →
    (∀ c ∈ ws, isWs c = true) → sizeList l ≤ fuel →
    readElements fuel (ws ++ (writeItems ind l ++ '\n' :: (ind0 ++ ']' :: rest))) acc =
      some (.arr (acc.reverse ++ l), rest)
  | [], _, _, _, _, _, _, hl, _, _, _, _, _ => absurd rfl hl
  | x :: xs, ind, ind0, ws, rest, acc, fuel, _, hv, hi, hi0, hw, hf => by
    obtain ⟨f, rfl⟩ : ∃ f, fuel = f + 1 := ⟨fuel - 1, by simp only [sizeList] at hf; omega⟩
    simp only [RepresentableList] at hv
    simp only [sizeList] at hf
    have hval := readValue_write x ind ws
      (writeElements ind xs ++ '\n' :: (ind0 ++ ']' :: rest)) f hv.1 hi hw
      (endsNumber_elements _ _ _) (by omega)
    simp only [writeItems, List.append_assoc]
    rw [readElements, hval]
    dsimp only
    by_cases hxs : xs = []
    · subst hxs
      have hskip : skipWs (writeElements ind [] ++ '\n' :: (ind0 ++ ']' :: rest)) =
          ']' :: rest := by
        have := skipWs_append ('\n' :: ind0) (']' :: rest) hi0.newline
        simp only [List.cons_append] at this
        simp only [writeElements, List.nil_append]
        rw [this, skipWs_cons _ (by decide)]
      rw [hskip]
      dsimp only
      rw [if_neg (by decide), if_pos rfl]
      simp
    · have ih := readElements_write xs ind ind0 ('\n' :: ind) rest (x :: acc) f hxs hv.2
        hi hi0 hi.newline (by omega)
      rw [writeElements_eq ind hxs]
      simp only [List.cons_append, List.append_assoc] at ih ⊢
      rw [skipWs_cons _ (by decide)]
      dsimp only
      rw [if_pos rfl, ih]
      simp
theorem readMembers_write : ∀ (l : List (String × JsVal)) (ind ind0 ws rest : List Char)
    (acc : List (String × JsVal)) (fuel : ℕ), l ≠ [] → RepresentableMembers l →
    Spaces ind → Spaces ind0 → (∀ c ∈ ws, isWs c = true) → sizeMembers l ≤ fuel →
    readMembers fuel (ws ++ (writeFields ind l ++ '\n' :: (ind0 ++ rbrace :: rest))) acc =
      some (.obj (addEntries acc l), rest)
  | [], _, _, _, _, _, _, hl, _, _, _, _, _ => absurd rfl hl
  | (k, v) :: kvs, ind, ind0, ws, rest, acc, fuel, _, hv, hi, hi0, hw, hf => by
    obtain ⟨f, rfl⟩ : ∃ f, fuel = f + 1 := ⟨fuel - 1, by simp only [sizeMembers] at hf; omega⟩
    simp only [RepresentableMembers] at hv
    simp only [sizeMembers] at hf
    have hval := readValue_write v ind [' ']
      (writeMembers ind kvs ++ '\n' :: (ind0 ++ rbrace :: rest)) f hv.1 hi
      (by intro c hc; simp at hc; rw [hc]; decide)
      (endsNumber_members _ _ _) (by omega)
    simp only [writeFields, quote, List.cons_append, List.append_assoc, List.nil_append] at hval ⊢
    rw [readMembers, skipWs_append _ _ hw, skipWs_cons _ (by decide)]
    dsimp only
    rw [if_pos rfl, readString_quote]
    dsimp only
    rw [skipWs_cons _ (by decide)]
    dsimp only
    rw [if_pos rfl, hval]
    dsimp only
    by_cases hxs : kvs = []
    · subst hxs
      have hskip : skipWs (writeMembers ind [] ++ '\n' :: (ind0 ++ rbrace :: rest)) =
          rbrace :: rest := by
        have := skipWs_append ('\n' :: ind0) (rbrace :: rest) hi0.newline
        simp only [List.cons_append] at this
        simp only [writeMembers, List.nil_append]
        rw [this, skipWs_cons _ (by decide)]
      rw [hskip]
      dsimp only
      rw [if_neg (by decide), if_pos rfl]
      rfl
    · have ih := readMembers_write kvs ind ind0 ('\n' :: ind) rest (setProp acc k v) f hxs hv.2
        hi hi0 hi.newline (by omega)
      rw [writeMembers_eq ind hxs]
      simp only [List.cons_append, List.append_assoc] at ih ⊢
      rw [skipWs_cons _ (by decide)]
      dsimp only
      rw [if_pos rfl, ih]
      rfl
end

mutual
theorem size_le_write : ∀ (v : JsVal) (ind : List Char), size v ≤ (write ind v).length
  | .null, _ => by simp [size, write]
  | .bool b, _ => by cases b <;> simp [size, write]
  | .num (.fin q), _ => by simpa [size, write] using numberChars_length q
  | .num .nan, _ => by simp [size, write]
  | .num (.inf p), _ => by simp [size, write]
  | .str s, _ => by simp [size, write, quote]
  | .arr [], _ => by simp [size, sizeList, write]
  | .arr (x :: xs), ind => by
    have h1 := size_le_write x (ind ++ [' ', ' '])
    have h2 := sizeList_le_write xs (ind ++ [' ', ' '])
    simp only [size, sizeList, write, List.length_cons, List.length_append]
    omega
  | .obj [], _ => by simp [size, sizeMembers, write]
  | .obj ((k, v) :: kvs), ind => by
    have h1 := size_le_write v (ind ++ [' ', ' '])
    have h2 := sizeMembers_le_write kvs (ind ++ [' ', ' '])
    simp only [size, sizeMembers, write, List.length_cons, List.length_append]
    omega
theorem sizeList_le_write : ∀ (xs : List JsVal) (ind : List Char),
    sizeList xs ≤ (writeElements ind xs).length
  | [], _ => by simp [sizeList]
  | x :: xs, ind => by
    have h1 := size_le_write x ind
    have h2 := sizeList_le_write xs ind
    simp only [sizeList, writeElements, List.length_cons, List.length_append]
    omega
theorem sizeMembers_le_write : ∀ (kvs : List (String × JsVal)) (ind : List Char),
    sizeMembers kvs ≤ (writeMembers ind kvs).length
  | [], _ => by simp [sizeMembers]
  | (k, v) :: kvs, ind => by
    have h1 := size_le_write v ind
    have h2 := sizeMembers_le_write kvs ind
    simp only [sizeMembers, writeMembers, List.length_cons, List.length_append]
    omega
end

/-- Reading the text that `JSON.stringify(value, null, 2)` writes gives the value
back. -/
theorem parse_stringify (v : JsVal) (hv : Representable v) :
    parse (stringify v) = some v := by
  have h := readValue_write v [] [] [] ((write [] v).length + 1) hv
    (by intro c hc; simp at hc) (by intro c hc; simp at hc) endsNumber_nil
    (Nat.le_succ_of_le (size_le_write v []))
  simp only [List.nil_append, List.append_nil] at h
  simp only [parse, stringify, String.length_mk, h]
  rfl

end Json

/-! ## The summary -/

namespace LoadTest
open K6

theorem numberToString_zero (rt : Runtime) : numberToString rt (.fin 0) = "0" := by
  have h : (0 : ℚ).den = 1 ∧ (0 : ℚ).num.natAbs ≤ 2 ^ 53 := ⟨rfl, by norm_num⟩
  show (if (0 : ℚ).den = 1 ∧ (0 : ℚ).num.natAbs ≤ 2 ^ 53 then toString (0 : ℚ).num
    else rt.numberToString 0) = "0"
  rw [if_pos h]
  rfl

theorem toFixed2_zero (rt : Runtime) : toFixed2 rt (.fin 0) = "0.00" := by
  have h : ⌊|(0 : ℚ)| * 100 + 1 / 2⌋ = 0 := by
    rw [Int.floor_eq_iff]; norm_num
  have h1 : ¬ ((0 : ℚ) < 0) := lt_irrefl 0
  have h2 : ¬ ((10 : ℚ) ^ 21 ≤ |(0 : ℚ)|) := by norm_num
  show (if (10 : ℚ) ^ 21 ≤ |(0 : ℚ)| then
      (if (0 : ℚ) < 0 then "-" else "") ++ numberToString rt (.fin |(0 : ℚ)|)
    else (if (0 : ℚ) < 0 then "-" else "") ++
      toString (⌊|(0 : ℚ)| * 100 + 1 / 2⌋.toNat / 100) ++ "." ++
      twoDigits (⌊|(0 : ℚ)| * 100 + 1 / 2⌋.toNat % 100)) = "0.00"
  rw [if_neg h2, if_neg h1, h]
  rfl

theorem mul_hundred_zero : JsNum.mul 100 (.fin 0) = .fin 0 := by
  show roundDouble (100 * 0) = .fin 0
  rw [mul_zero]
  exact roundDouble_zero

theorem orZero_of_numberOrFalsy {v : Option JsVal} (h : numberOrFalsy v) :
    orZero v = .num (shownNumber v) := by
  cases v with
  | none => rfl
  | some w =>
    cases ht : truthy w with
    | false => simp [shownNumber, orZero, ht]
    | true =>
      obtain ⟨q, hq⟩ := h w rfl ht
      subst hq
      simp [shownNumber, orZero, ht]

theorem textSummary_of_values (rt : Runtime) (data options : JsVal)
    (ms : List (String × JsVal)) (count : String) (rate : JsNum)
    (hm : getField data "metrics" = some (.obj ms))
    (hc : toStr rt (orZero (summaryValue ms "http_reqs" "count")) = .ok count)
    (ha : numberOrFalsy (summaryValue ms "http_req_duration" "avg"))
    (hp : numberOrFalsy (summaryValue ms "http_req_duration" "p(95)"))
    (hr : toNumber rt (orZero (summaryValue ms "errors" "rate")) = .ok rate) :
    textSummary rt data options = .ok
      ("\n========== RESUMO DO TESTE DE CARGA ==========\n\n" ++
        ("Total de Requisições: " ++ count ++ "\n") ++
        ("Duração Média: " ++
          toFixed2 rt (shownNumber (summaryValue ms "http_req_duration" "avg")) ++ "ms\n") ++
        ("P95: " ++
          toFixed2 rt (shownNumber (summaryValue ms "http_req_duration" "p(95)")) ++ "ms\n") ++
        ("Taxa de Erro: " ++ toFixed2 rt (JsNum.mul 100 rate) ++ "%\n") ++
        "\n===============================================\n") := by
  have hd : data ≠ .null := by
    intro h; rw [h] at hm; cases hm
  have hobj : ∀ k, member (some (JsVal.obj ms)) k = .ok (lookup ms k) := fun k => rfl
  have ha2 := orZero_of_numberOrFalsy ha
  have hp2 := orZero_of_numberOrFalsy hp
  unfold summaryValue at hc ha2 hp2 hr
  unfold textSummary
  simp only [member_some "metrics" hd, hm, bind, Except.bind, hobj, hc, ha2, hp2, hr,
    callToFixed2, pure, Except.pure, summaryValue]

theorem textSummary_emptyMetrics (rt : Runtime) (options : JsVal) :
    textSummary rt (.obj [("metrics", .obj [])]) options = .ok
      "\n========== RESUMO DO TESTE DE CARGA ==========\n\nTotal de Requisições: 0\nDuração Média: 0.00ms\nP95: 0.00ms\nTaxa de Erro: 0.00%\n\n===============================================\n" := by
  have hn : ∀ metric field, numberOrFalsy (summaryValue [] metric field) := by
    intro metric field w hw
    cases hw
  have hs : ∀ metric field, shownNumber (summaryValue [] metric field) = .fin 0 :=
    fun _ _ => rfl
  have hc : toStr rt (orZero (summaryValue [] "http_reqs" "count")) = .ok "0" := by
    show Except.ok (numberToString rt (.fin 0)) = .ok "0"
    rw [numberToString_zero]
  rw [textSummary_of_values rt (.obj [("metrics", .obj [])]) options [] "0" (.fin 0) rfl hc
    (hn _ _) (hn _ _) rfl]
  simp only [hs, mul_hundred_zero, toFixed2_zero]
  rfl

theorem numberOrFalsy_num (x : JsNum) : numberOrFalsy (some (.num x)) := by
  intro w hw _
  cases hw
  exact ⟨x, rfl⟩

theorem numberOrFalsy_none : numberOrFalsy none := by
  intro w hw
  cases hw

theorem handleSummary_of_text (rt : Runtime) (data : JsVal) (text : String)
    (ht : textSummary rt data (.obj [("indent", .str " "), ("enableColors", .bool true)]) =
      .ok text) :
    handleSummary rt data =
      .ok [("stdout", text), ("k6/summary.json", Json.stringify data)] := by
  unfold handleSummary
  rw [ht]
  rfl

/-- An exception of `textSummary(data)` is the exception of `handleSummary(data)`:
the mapping is returned exactly when the text is. -/
theorem handleSummary_error (rt : Runtime) (data : JsVal) (e : JsError)
    (ht : textSummary rt data (.obj [("indent", .str " "), ("enableColors", .bool true)]) =
      .error e) :
    handleSummary rt data = .error e := by
  unfold handleSummary
  rw [ht]
  rfl

theorem floor_index_bounds (r : ℚ) (n : ℕ) (hn : 0 < n) (h0 : 0 ≤ r) (h1 : r < 1) :
    0 ≤ ⌊r * (n : ℚ)⌋ ∧ ⌊r * (n : ℚ)⌋ ≤ (n : ℤ) - 1 := by
  have hnq : (0 : ℚ) < n := by exact_mod_cast hn
  constructor
  · exact Int.floor_nonneg.mpr (mul_nonneg h0 hnq.le)
  · have hlt : ⌊r * (n : ℚ)⌋ < (n : ℤ) := by
      rw [Int.floor_lt]
      have : r * (n : ℚ) < 1 * n := mul_lt_mul_of_pos_right h1 hnq
      simpa using this
    omega

/-- The product of a binary64 number in `[0, 1)` and a length is a finite number
below the length. -/
theorem mul_length_lt (r : ℚ) (n : ℕ) (hn : 0 < n) (hn2 : n < 2 ^ 32)
    (hd : IsDouble r) (h0 : 0 ≤ r) (h1 : r < 1) :
    ∃ y, JsNum.mul r (.fin n) = .fin y ∧ 0 ≤ ⌊y⌋ ∧ ⌊y⌋ ≤ (n : ℤ) - 1 := by
  have hnq : (1 : ℚ) ≤ n := by exact_mod_cast hn
  have hn3 : (n : ℚ) ≤ 2 ^ 1024 := by
    have h32 : (n : ℚ) < 2 ^ 32 := by exact_mod_cast hn2
    have : (2 : ℚ) ^ 32 ≤ 2 ^ 1024 := pow_le_pow_right₀ (by norm_num) (by norm_num)
    linarith
  have hr := hd.le_pred_one h0 h1
  have hx : r * n ≤ n * (1 - 2 ^ (-53 : ℤ)) := by
    have : r * n ≤ (1 - 2 ^ (-53 : ℤ)) * n :=
      mul_le_mul_of_nonneg_right hr (by linarith)
    linarith
  obtain ⟨y, hy, hy0, hylt⟩ := roundDouble_lt (mul_nonneg h0 (by linarith)) hnq hn3 hx
  refine ⟨y, hy, Int.floor_nonneg.mpr hy0, ?_⟩
  have : ⌊y⌋ < (n : ℤ) := by
    rw [Int.floor_lt]; exact_mod_cast hylt
  omega

theorem randomLocation_arr (env : Env) (data : JsVal) (xs : List JsVal) (y : ℚ)
    (hl : getField data "locations" = some (.arr xs))
    (hy : JsNum.mul env.random (.fin xs.length) = .fin y)
    (hlo : 0 ≤ ⌊y⌋) :
    randomLocation env data = .ok xs[⌊y⌋.toNat]? := by
  have hd : data ≠ .null := by
    intro h; rw [h] at hl; cases hl
  have hlenf : getField (.arr xs) "length" = some (.num (.fin xs.length)) := rfl
  have harr : (JsVal.arr xs) ≠ .null := by simp
  unfold randomLocation
  simp only [member_some "locations" hd, hl, bind, Except.bind, member_some "length" harr, hlenf,
    toNumberOpt, toNumber, hy, JsNum.floor, memberAt, getIndexed, Rat.intCast_den,
    Rat.intCast_num, hlo, and_self, if_true]

/-- C5. For a summary `data` with a `metrics` object, `textSummary` returns the
text in fixed sections: an empty line, the header line, an empty line, the four
labelled lines in the order total requests, average duration, p95, error rate (the
text of `rate * 100`), an empty line and the footer line. This holds for every
value of the four summarised fields on which the conversions of the code are
defined: `avg` and `p(95)` absent, falsy or numbers (the receivers of `toFixed`),
`count` with a text and `rate` with a number. The result does not depend on
`options`; an absent metric, `values` or field is shown as 0; and for
`data = {metrics: {}}` the four lines show 0, 0.00ms, 0.00ms and 0.00%. -/
theorem C5_textSummary_fixed_sections (rt : Runtime) (data options : JsVal)
    (ms : List (String × JsVal)) (count : String) (rate : JsNum)
    (hm : getField data "metrics" = some (.obj ms))
    (hc : toStr rt (orZero (summaryValue ms "http_reqs" "count")) = .ok count)
    (ha : numberOrFalsy (summaryValue ms "http_req_duration" "avg"))
    (hp : numberOrFalsy (summaryValue ms "http_req_duration" "p(95)"))
    (hr : toNumber rt (orZero (summaryValue ms "errors" "rate")) = .ok rate) :
    textSummary rt data options = .ok
      ("\n========== RESUMO DO TESTE DE CARGA ==========\n\n" ++
        ("Total de Requisições: " ++ count ++ "\n") ++
        ("Duração Média: " ++
          toFixed2 rt (shownNumber (summaryValue ms "http_req_duration" "avg")) ++ "ms\n") ++
        ("P95: " ++
          toFixed2 rt (shownNumber (summaryValue ms "http_req_duration" "p(95)")) ++ "ms\n") ++
        ("Taxa de Erro: " ++ toFixed2 rt (JsNum.mul 100 rate) ++ "%\n") ++
        "\n===============================================\n") ∧
    (∀ other, textSummary rt data other = textSummary rt data options) ∧
    (∀ metric field, summaryValue ms metric field = none →
      orZero (summaryValue ms metric field) = .num (.fin 0) ∧
      toStr rt (orZero (summaryValue ms metric field)) = .ok "0" ∧
      toNumber rt (orZero (summaryValue ms metric field)) = .ok (.fin 0) ∧
      shownNumber (summaryValue ms metric field) = .fin 0) ∧
    toFixed2 rt (.fin 0) = "0.00" ∧ JsNum.mul 100 (.fin 0) = .fin 0 ∧
    textSummary rt (.obj [("metrics", .obj [])]) options = .ok
      "\n========== RESUMO DO TESTE DE CARGA ==========\n\nTotal de Requisições: 0\nDuração Média: 0.00ms\nP95: 0.00ms\nTaxa de Erro: 0.00%\n\n===============================================\n" := by
  refine ⟨textSummary_of_values rt data options ms count rate hm hc ha hp hr, fun _ => rfl, ?_,
    toFixed2_zero rt, mul_hundred_zero, textSummary_emptyMetrics rt options⟩
  intro metric field h
  rw [h]
  refine ⟨rfl, ?_, rfl, rfl⟩
  show Except.ok (numberToString rt (.fin 0)) = .ok "0"
  rw [numberToString_zero]

/-- C6. On a `data` for which `textSummary(data)` returns a text, as it does on
every summary k6 hands over, `handleSummary(data)` returns exactly the two
destinations `stdout` and `k6/summary.json`, in this order: the first holds the
text of `textSummary(data)`, whatever the options, the second the text
`JSON.stringify(data, null, 2)` of the whole `data`; and for a JSON-representable
`data` `JSON.parse` of the second gives back `data`. -/
theorem C6_handleSummary_two_destinations (rt : Runtime) (data : JsVal) (text : String)
    (ht : textSummary rt data (.obj [("indent", .str " "), ("enableColors", .bool true)]) =
      .ok text)
    (hrep : Json.Representable data) :
    handleSummary rt data =
      .ok [("stdout", text), ("k6/summary.json", Json.stringify data)] ∧
    (∀ options, textSummary rt data options = .ok text) ∧
    Json.parse (Json.stringify data) = some data ∧
    ∀ out, handleSummary rt data = .ok out →
      out.map Prod.fst = ["stdout", "k6/summary.json"] ∧
      out.lookup "stdout" = some text ∧
      (out.lookup "k6/summary.json").bind Json.parse = some data := by
  have h := handleSummary_of_text rt data text ht
  have hround := Json.parse_stringify data hrep
  refine ⟨h, fun _ => ht, hround, ?_⟩
  intro out hout
  rw [h] at hout
  cases hout
  have hl : List.lookup "k6/summary.json"
      [("stdout", text), ("k6/summary.json", Json.stringify data)] =
      some (Json.stringify data) := by
    simp [List.lookup]
  refine ⟨rfl, by simp [List.lookup], ?_⟩
  rw [hl]
  exact hround

/-- C10. For a non-empty `locations` array and a value of `Math.random()` in
`[0, 1)`, the index never leaves the array. Over the exact rationals
`0 <= floor(r * length) <= length - 1` for every `r` with `0 <= r < 1`; and in
the code, where the product is the binary64 product of the binary64 number
`Math.random()` and the length (below `2^32` for an array), the product is finite,
its floor lies between 0 and `length - 1`, and `randomLocation` is the element of
the array at that index, never `undefined`. -/
theorem C10_random_index_in_bounds (env : Env) (data : JsVal) (xs : List JsVal)
    (hl : getField data "locations" = some (.arr xs))
    (hne : xs ≠ []) (hlen : xs.length < 2 ^ 32)
    (hd : IsDouble env.random)
    (h0 : 0 ≤ env.random) (h1 : env.random < 1) :
    (∀ r : ℚ, 0 ≤ r → r < 1 →
      0 ≤ ⌊r * (xs.length : ℚ)⌋ ∧ ⌊r * (xs.length : ℚ)⌋ ≤ (xs.length : ℤ) - 1) ∧
    ∃ y, JsNum.mul env.random (.fin xs.length) = .fin y ∧
      0 ≤ ⌊y⌋ ∧ ⌊y⌋ ≤ (xs.length : ℤ) - 1 ∧
      ∃ x ∈ xs, xs[⌊y⌋.toNat]? = some x ∧ randomLocation env data = .ok (some x) := by
  have hpos : 0 < xs.length := List.length_pos.mpr hne
  obtain ⟨y, hy, hy0, hy1⟩ := mul_length_lt env.random xs.length hpos hlen hd h0 h1
  refine ⟨fun r hr0 hr1 => floor_index_bounds r xs.length hpos hr0 hr1, y, hy, hy0, hy1, ?_⟩
  have hidx : ⌊y⌋.toNat < xs.length := by omega
  have hget : xs[⌊y⌋.toNat]? = some (xs[⌊y⌋.toNat]) := List.getElem?_eq_getElem hidx
  refine ⟨xs[⌊y⌋.toNat], List.getElem_mem _, hget, ?_⟩
  rw [randomLocation_arr env data xs y hl hy hy0, hget]

end LoadTest

namespace LoadTest
open K6 K6.Script

/-- The six-request run: what the first response must give for it. -/
theorem iteration_six (env : Env) (data : JsVal) (rl : Option JsVal) (id : String)
    (hp : jsonParse env.rt (env.responses 0).body = .ok data)
    (hc : hasLocations env.rt data = .ok true)
    (hr : randomLocation env data = .ok rl)
    (hi : idText env.rt rl = .ok id) :
    iteration env = (.ok (), ⟨6, independentTrace env ++
      dependentTrace id (env.responses 4) (env.responses 5) ++ [.sleep 1]⟩) := by
  have hd : dependentSteps env (env.responses 0) ⟨4, independentTrace env⟩ =
      (.ok (), World.mk 6 (independentTrace env ++
        dependentTrace id (env.responses 4) (env.responses 5))) := by
    unfold dependentSteps
    simp [bind, Script.seq, Script.eval, hp, hc, hr, hi, httpGet, Script.emit, dependentTrace]
  rw [iteration_eq, hd]

end LoadTest

namespace Sample
open K6 LoadTest

theorem isDouble_half : IsDouble (1 / 2) :=
  isDouble_of (-1) (2 ^ 52) (by norm_num) (by norm_num)
    (by norm_num [abs_of_nonneg]) (by norm_num [abs_of_nonneg])
    (by norm_num [abs_of_nonneg, zpow_neg])

theorem isDouble_edge : IsDouble (6004799503160661 / 2 ^ 53) :=
  isDouble_of (-1) 6004799503160661 (by norm_num) (by norm_num)
    (by norm_num [abs_of_nonneg]) (by norm_num [abs_of_nonneg])
    (by norm_num [abs_of_nonneg, zpow_neg])

/-- The binary64 product can exceed the exact one: for the binary64 number
`6004799503160661 / 2^53` and the length 3 the exact product has floor 1, the
product of the code is 2. -/
theorem product_rounds_up :
    ⌊(6004799503160661 / 2 ^ 53 : ℚ) * 3⌋ = 1 ∧
    JsNum.mul (6004799503160661 / 2 ^ 53) (.fin 3) = .fin 2 := by
  constructor
  · rw [Int.floor_eq_iff]; norm_num
  · show roundDouble ((6004799503160661 / 2 ^ 53 : ℚ) * 3) = .fin 2
    have hk : roundHalfEven ((6004799503160661 / 2 ^ 53 : ℚ) * 3 / 2 ^ ((0 : ℤ) - 52)) =
        9007199254740992 := by
      have hv : (6004799503160661 / 2 ^ 53 : ℚ) * 3 / 2 ^ ((0 : ℤ) - 52) =
          18014398509481983 / 2 := by norm_num [zpow_neg]
      have hf : ⌊(18014398509481983 / 2 : ℚ)⌋ = 9007199254740991 := by
        rw [Int.floor_eq_iff]; norm_num
      rw [hv]
      unfold roundHalfEven
      rw [hf]
      norm_num
    rw [roundDouble_eval 0 9007199254740992 (by norm_num) (by norm_num) (by norm_num) hk
      (by norm_num [zpow_neg])]
    congr 1
    norm_num [zpow_neg]

/-- With that random value the code picks the third of three locations, where
the exact product would name the second. -/
theorem edgeEnv_picks_third :
    randomLocation edgeEnv threeData = .ok (some (.obj [("id", .num (.fin 3))])) := by
  have hmul : JsNum.mul edgeEnv.random
      (.fin ([JsVal.obj [("id", .num (.fin 1))], JsVal.obj [("id", .num (.fin 2))],
        JsVal.obj [("id", .num (.fin 3))]].length : ℕ)) = .fin 2 := by
    have h := product_rounds_up.2
    show JsNum.mul (6004799503160661 / 2 ^ 53) (.fin ((3 : ℕ) : ℚ)) = .fin 2
    rw [Nat.cast_ofNat]
    exact h
  have hfloor : ⌊(2 : ℚ)⌋ = 2 := by rw [Int.floor_eq_iff]; norm_num
  rw [randomLocation_arr edgeEnv threeData _ 2 rfl hmul (by rw [hfloor]; decide), hfloor]
  rfl

theorem isDouble_one : IsDouble 1 :=
  isDouble_of 0 (2 ^ 52) (by norm_num) (by norm_num)
    (by norm_num) (by norm_num) (by norm_num [zpow_neg])

theorem isDouble_nat_seven : IsDouble 7 :=
  isDouble_of 2 (7 * 2 ^ 50) (by norm_num) (by norm_num)
    (by norm_num) (by norm_num) (by norm_num [zpow_neg])

theorem isDouble_nat_nine : IsDouble 9 :=
  isDouble_of 3 (9 * 2 ^ 49) (by norm_num) (by norm_num)
    (by norm_num) (by norm_num) (by norm_num [zpow_neg])

theorem representable_listData : Json.Representable listData := by
  simp only [listData, Json.Representable, Json.RepresentableList, Json.RepresentableMembers]
  exact ⟨rfl, ⟨⟨rfl, ⟨7, rfl, isDouble_nat_seven⟩, trivial⟩,
    ⟨rfl, ⟨9, rfl, isDouble_nat_nine⟩, trivial⟩, trivial⟩, trivial⟩

theorem representable_summaryData : Json.Representable summaryData := by
  have hcount : IsDouble 160 :=
    isDouble_of 7 (160 * 2 ^ 45) (by norm_num) (by norm_num)
      (by norm_num) (by norm_num) (by norm_num [zpow_neg])
  have havg : IsDouble (301 / 2) :=
    isDouble_of 7 (301 * 2 ^ 44) (by norm_num) (by norm_num)
      (by norm_num [abs_of_nonneg]) (by norm_num [abs_of_nonneg])
      (by norm_num [abs_of_nonneg, zpow_neg])
  have hp95 : IsDouble (1921 / 4) :=
    isDouble_of 8 (1921 * 2 ^ 42) (by norm_num) (by norm_num)
      (by norm_num [abs_of_nonneg]) (by norm_num [abs_of_nonneg])
      (by norm_num [abs_of_nonneg, zpow_neg])
  have hrate : IsDouble (5404319552844595 / 2 ^ 58) :=
    isDouble_of (-6) 5404319552844595 (by norm_num) (by norm_num)
      (by norm_num [abs_of_nonneg, zpow_neg]) (by norm_num [abs_of_nonneg, zpow_neg])
      (by norm_num [abs_of_nonneg, zpow_neg])
  have hms : IsDouble (60125 / 2) :=
    isDouble_of 14 (60125 * 2 ^ 37) (by norm_num) (by norm_num)
      (by norm_num [abs_of_nonneg]) (by norm_num [abs_of_nonneg])
      (by norm_num [abs_of_nonneg, zpow_neg])
  simp only [summaryData, summaryMetrics, Json.Representable, Json.RepresentableList,
    Json.RepresentableMembers]
  refine ⟨rfl, ⟨rfl, trivial, trivial, trivial, trivial⟩,
    ⟨rfl, trivial, ⟨_, rfl, hms⟩, trivial⟩,
    ⟨rfl, ⟨rfl, trivial, trivial, ⟨rfl, ⟨_, rfl, hcount⟩, trivial⟩, trivial⟩,
      ⟨rfl, trivial, trivial, ⟨rfl, ⟨_, rfl, havg⟩, ⟨_, rfl, hp95⟩, trivial⟩, trivial⟩,
      ⟨rfl, trivial, trivial, ⟨rfl, ⟨_, rfl, hrate⟩, trivial⟩, trivial⟩, trivial⟩, trivial⟩

theorem toFixed2_of_floor (rt : Runtime) (q : ℚ) (n : ℕ) (h0 : 0 ≤ q) (hq : q < 10 ^ 21)
    (hn : ⌊q * 100 + 1 / 2⌋ = (n : ℤ)) :
    toFixed2 rt (.fin q) = toString (n / 100) ++ "." ++ twoDigits (n % 100) := by
  have h1 : ¬ (q < 0) := not_lt.mpr h0
  have h2 : ¬ ((10 : ℚ) ^ 21 ≤ |q|) := by rw [abs_of_nonneg h0]; exact not_le.mpr hq
  show (if (10 : ℚ) ^ 21 ≤ |q| then
      (if q < 0 then "-" else "") ++ numberToString rt (.fin |q|)
    else (if q < 0 then "-" else "") ++
      toString (⌊|q| * 100 + 1 / 2⌋.toNat / 100) ++ "." ++
      twoDigits (⌊|q| * 100 + 1 / 2⌋.toNat % 100)) = _
  rw [if_neg h2, if_neg h1, abs_of_nonneg h0, hn, Int.toNat_natCast]
  rfl

theorem summary_count :
    toStr runtime (orZero (summaryValue summaryMetrics "http_reqs" "count")) = .ok "160" := by
  have h : (160 : ℚ).den = 1 ∧ (160 : ℚ).num.natAbs ≤ 2 ^ 53 := ⟨rfl, by norm_num⟩
  show Except.ok (if (160 : ℚ).den = 1 ∧ (160 : ℚ).num.natAbs ≤ 2 ^ 53 then
    toString (160 : ℚ).num else runtime.numberToString 160) = .ok "160"
  rw [if_pos h]
  rfl

theorem summary_rate :
    toNumber runtime (orZero (summaryValue summaryMetrics "errors" "rate")) =
      .ok (.fin (5404319552844595 / 2 ^ 58)) := by
  show toNumber runtime (orZero (some (.num (.fin (5404319552844595 / 2 ^ 58))))) = _
  have : truthy (.num (.fin (5404319552844595 / 2 ^ 58))) = true := by simp [truthy]
  simp [orZero, this, toNumber]

/-- The binary64 product `100 * rate` of the sample is 1.875, above the exact
product, and is shown as 1.88 where the exact product would be shown as 1.87. -/
theorem summary_rate_product :
    (100 : ℚ) * (5404319552844595 / 2 ^ 58) < 15 / 8 ∧
    JsNum.mul 100 (.fin (5404319552844595 / 2 ^ 58)) = .fin (15 / 8) := by
  constructor
  · norm_num
  · show roundDouble ((100 : ℚ) * (5404319552844595 / 2 ^ 58)) = .fin (15 / 8)
    have hk : roundHalfEven ((100 : ℚ) * (5404319552844595 / 2 ^ 58) / 2 ^ ((0 : ℤ) - 52)) =
        8444249301319680 := by
      have hv : (100 : ℚ) * (5404319552844595 / 2 ^ 58) / 2 ^ ((0 : ℤ) - 52) =
          135107988821114875 / 16 := by norm_num [zpow_neg]
      have hf : ⌊(135107988821114875 / 16 : ℚ)⌋ = 8444249301319679 := by
        rw [Int.floor_eq_iff]; norm_num
      rw [hv]
      unfold roundHalfEven
      rw [hf]
      norm_num
    rw [roundDouble_eval 0 8444249301319680 (by norm_num) (by norm_num) (by norm_num) hk
      (by norm_num [zpow_neg])]
    congr 1
    norm_num [zpow_neg]

theorem summary_lines :
    "\n========== RESUMO DO TESTE DE CARGA ==========\n\n" ++
      ("Total de Requisições: " ++ "160" ++ "\n") ++
      ("Duração Média: " ++
        toFixed2 runtime (shownNumber (summaryValue summaryMetrics "http_req_duration" "avg")) ++
        "ms\n") ++
      ("P95: " ++
        toFixed2 runtime
          (shownNumber (summaryValue summaryMetrics "http_req_duration" "p(95)")) ++
        "ms\n") ++
      ("Taxa de Erro: " ++
        toFixed2 runtime (JsNum.mul 100 (.fin (5404319552844595 / 2 ^ 58))) ++ "%\n") ++
      "\n===============================================\n" = summaryText := by
  have hsa : shownNumber (summaryValue summaryMetrics "http_req_duration" "avg") =
      .fin (301 / 2) := by
    show shownNumber (some (.num (.fin (301 / 2)))) = _
    have : truthy (.num (.fin (301 / 2))) = true := by simp [truthy]
    simp [shownNumber, orZero, this]
  have hsp : shownNumber (summaryValue summaryMetrics "http_req_duration" "p(95)") =
      .fin (1921 / 4) := by
    show shownNumber (some (.num (.fin (1921 / 4)))) = _
    have : truthy (.num (.fin (1921 / 4))) = true := by simp [truthy]
    simp [shownNumber, orZero, this]
  have hfa : toFixed2 runtime (.fin (301 / 2)) = "150.50" := by
    rw [toFixed2_of_floor runtime (301 / 2) 15050 (by norm_num) (by norm_num)
      (by rw [Int.floor_eq_iff]; norm_num)]
    rfl
  have hfp : toFixed2 runtime (.fin (1921 / 4)) = "480.25" := by
    rw [toFixed2_of_floor runtime (1921 / 4) 48025 (by norm_num) (by norm_num)
      (by rw [Int.floor_eq_iff]; norm_num)]
    rfl
  have hfr : toFixed2 runtime (.fin (15 / 8)) = "1.88" := by
    rw [toFixed2_of_floor runtime (15 / 8) 188 (by norm_num) (by norm_num)
      (by rw [Int.floor_eq_iff]; norm_num)]
    rfl
  rw [hsa, hsp, hfa, hfp, summary_rate_product.2, hfr]
  rfl

theorem textSummary_summaryData (options : JsVal) :
    textSummary runtime summaryData options = .ok summaryText := by
  rw [textSummary_of_values runtime summaryData options summaryMetrics "160"
    (.fin (5404319552844595 / 2 ^ 58)) rfl summary_count
    (numberOrFalsy_num _) (numberOrFalsy_num _) summary_rate, summary_lines]

/-- A run of six requests: the random value 1/2 picks the second of the two
locations, whose id is 9. -/
theorem listEnv_urls :
    urls (iteration listEnv).2.trace =
      ["https://acesso-livre-api.onrender.com/api/locations/",
       "https://acesso-livre-api.onrender.com/api/locations/accessibility-items/",
       "https://acesso-livre-api.onrender.com/api/comments/recent",
       "https://acesso-livre-api.onrender.com/api/comments/icons/",
       "https://acesso-livre-api.onrender.com/api/locations/9",
       "https://acesso-livre-api.onrender.com/api/comments/9/comments"] := by
  have hp : jsonParse listEnv.rt (listEnv.responses 0).body = .ok listData := by
    have h := Json.parse_stringify listData representable_listData
    show (match Json.parse (Json.stringify listData) with
      | some v => Except.ok v
      | none => Except.error JsError.syntaxError) = _
    rw [h]
  have hmul : JsNum.mul listEnv.random
      (.fin ([JsVal.obj [("id", .num (.fin 7))], JsVal.obj [("id", .num (.fin 9))]].length : ℕ)) =
      .fin 1 := by
    show roundDouble ((1 / 2 : ℚ) * ((2 : ℕ) : ℚ)) = .fin 1
    have : (1 / 2 : ℚ) * ((2 : ℕ) : ℚ) = 1 := by norm_num
    rw [this]
    exact isDouble_one
  have hfloor : ⌊(1 : ℚ)⌋ = 1 := Int.floor_one
  have hc : hasLocations listEnv.rt listData = .ok true := by
    simp [hasLocations, listData, member, getField, lookup, truthyOpt, truthy, toNumberOpt,
      toNumber, JsNum.isPos, bind, Except.bind, pure, Except.pure]
  have hr : randomLocation listEnv listData = .ok (some (.obj [("id", .num (.fin 9))])) := by
    rw [randomLocation_arr listEnv listData
      [.obj [("id", .num (.fin 7))], .obj [("id", .num (.fin 9))]] 1 rfl hmul
      (by rw [hfloor]; decide), hfloor]
    rfl
  have hn : numberToString runtime (.fin 9) = "9" := by
    have h : (9 : ℚ).den = 1 ∧ (9 : ℚ).num.natAbs ≤ 2 ^ 53 := ⟨rfl, by norm_num⟩
    show (if (9 : ℚ).den = 1 ∧ (9 : ℚ).num.natAbs ≤ 2 ^ 53 then toString (9 : ℚ).num
      else runtime.numberToString 9) = "9"
    rw [if_pos h]
    rfl
  have hi : idText listEnv.rt (some (.obj [("id", .num (.fin 9))])) = .ok "9" := by
    show Except.ok (numberToString runtime (.fin 9)) = .ok "9"
    rw [hn]
  rw [iteration_six listEnv listData _ "9" hp hc hr hi]
  show urls (independentTrace listEnv ++ dependentTrace "9" _ _ ++ [.sleep 1]) = _
  rw [List.append_assoc, urls_independentTrace]
  rfl

end Sample

/-! ## The claims at concrete inputs -/

namespace Sample
open K6 LoadTest

theorem C1_witness :
    jsonParse htmlEnv.rt (htmlEnv.responses 0).body = .error .syntaxError ∧
    urls (iteration htmlEnv).2.trace =
      [BASE_URL ++ "/api/locations/", BASE_URL ++ "/api/locations/accessibility-items/",
        BASE_URL ++ "/api/comments/recent", BASE_URL ++ "/api/comments/icons/"] ∧
    rateObs "errors" (iteration htmlEnv).2.trace =
      [(htmlEnv.responses 0).status != 200, (htmlEnv.responses 1).status != 200,
        (htmlEnv.responses 2).status != 200, (htmlEnv.responses 3).status != 200] ∧
    (iteration htmlEnv).2.trace.getLast? = some (.sleep 1) :=
  ⟨rfl, (C1_parse_failure_skips_dependent_steps htmlEnv rfl).2⟩

theorem C2_witness :
    0 < (iteration offlineEnv).2.issued ∧ (offlineEnv.responses 0).status = 0 ∧
    (iteration offlineEnv).1 = .ok () ∧
    (rateObs "errors" (iteration offlineEnv).2.trace)[0]? = some true :=
  ⟨by decide, rfl,
    (C2_transport_failure_is_recorded offlineEnv 0 (by decide) rfl (Or.inl rfl)).1,
    (C2_transport_failure_is_recorded offlineEnv 0 (by decide) rfl (Or.inl rfl)).2.1⟩

theorem C3_witness :
    rate (errorsOfRun iteration [failingEnv]) = 1 ∧
    overallResult (snapshotOf (errorsOfRun iteration [failingEnv]) (fun _ _ => some 0))
      options.thresholds = false :=
  ⟨(C3_all_500_fails_thresholds [failingEnv] (fun _ _ => some 0) (by simp)
      (fun env henv k => by
        rw [List.mem_singleton] at henv
        subst henv
        rfl)).2.1,
    (C3_all_500_fails_thresholds [failingEnv] (fun _ _ => some 0) (by simp)
      (fun env henv k => by
        rw [List.mem_singleton] at henv
        subst henv
        rfl)).2.2.2⟩

theorem C4_witness :
    (slowEnv.responses 0).status = 200 ∧ ¬ ((slowEnv.responses 0).duration < 2000) ∧
    rate (errorsOfRun StressTest.iteration [slowEnv]) = 0 :=
  ⟨rfl, by show ¬ ((5000 : ℚ) < 2000); norm_num,
    (StressTest.C4_all_200_error_rate_zero [slowEnv]
      (fun env henv => by
        rw [List.mem_singleton] at henv
        subst henv
        rfl)).2⟩

theorem C5_witness :
    getField summaryData "metrics" = some (.obj summaryMetrics) ∧
    textSummary runtime summaryData .null = .ok summaryText :=
  ⟨rfl, ((C5_textSummary_fixed_sections runtime summaryData .null summaryMetrics "160"
    (.fin (5404319552844595 / 2 ^ 58)) rfl summary_count
    (numberOrFalsy_num _) (numberOrFalsy_num _) summary_rate).1).trans
      (congrArg Except.ok summary_lines)⟩

theorem C6_witness :
    textSummary runtime summaryData
      (.obj [("indent", .str " "), ("enableColors", .bool true)]) = .ok summaryText ∧
    Json.Representable summaryData ∧
    handleSummary runtime summaryData =
      .ok [("stdout", summaryText), ("k6/summary.json", Json.stringify summaryData)] ∧
    Json.parse (Json.stringify summaryData) = some summaryData :=
  ⟨textSummary_summaryData _, representable_summaryData,
    (C6_handleSummary_two_destinations runtime summaryData summaryText
      (textSummary_summaryData _) representable_summaryData).1,
    (C6_handleSummary_two_destinations runtime summaryData summaryText
      (textSummary_summaryData _) representable_summaryData).2.2.1⟩

theorem C10_witness :
    getField threeData "locations" =
      some (.arr [.obj [("id", .num (.fin 1))], .obj [("id", .num (.fin 2))],
        .obj [("id", .num (.fin 3))]]) ∧
    IsDouble edgeEnv.random ∧ (0 : ℚ) ≤ edgeEnv.random ∧ edgeEnv.random < 1 ∧
    ∃ y, JsNum.mul edgeEnv.random
        (.fin ([JsVal.obj [("id", .num (.fin 1))], JsVal.obj [("id", .num (.fin 2))],
          JsVal.obj [("id", .num (.fin 3))]].length : ℕ)) = .fin y ∧
      0 ≤ ⌊y⌋ ∧
      ⌊y⌋ ≤ (([JsVal.obj [("id", .num (.fin 1))], JsVal.obj [("id", .num (.fin 2))],
        JsVal.obj [("id", .num (.fin 3))]].length : ℕ) : ℤ) - 1 ∧
      ∃ x ∈ [JsVal.obj [("id", .num (.fin 1))], JsVal.obj [("id", .num (.fin 2))],
          JsVal.obj [("id", .num (.fin 3))]],
        [JsVal.obj [("id", .num (.fin 1))], JsVal.obj [("id", .num (.fin 2))],
          JsVal.obj [("id", .num (.fin 3))]][⌊y⌋.toNat]? = some x ∧
        randomLocation edgeEnv threeData = .ok (some x) :=
  ⟨rfl, isDouble_edge,
    by show (0 : ℚ) ≤ 6004799503160661 / 2 ^ 53; norm_num,
    by show (6004799503160661 / 2 ^ 53 : ℚ) < 1; norm_num,
    (C10_random_index_in_bounds edgeEnv threeData
      [.obj [("id", .num (.fin 1))], .obj [("id", .num (.fin 2))],
        .obj [("id", .num (.fin 3))]] rfl (by simp) (by simp)
      isDouble_edge
      (by show (0 : ℚ) ≤ 6004799503160661 / 2 ^ 53; norm_num)
      (by show (6004799503160661 / 2 ^ 53 : ℚ) < 1; norm_num)).2⟩

/-- C8 as stated fails: the duration of the second response (accessibility
items) is added to neither trend metric. -/
theorem C8_counterexample :
    1 < (iteration timedEnv).2.issued ∧
    (timedEnv.responses 1).duration ∉ trendObs "locations_duration" (iteration timedEnv).2.trace ∧
    (timedEnv.responses 1).duration ∉ trendObs "comments_duration" (iteration timedEnv).2.trace :=
  ⟨by decide, by decide, by decide⟩

end Sample
